import Mathlib

/-!
# Typing tracker (`src/main.js`): a shallow embedding

The plugin class `TypingTrackerPlugin` is embedded as explicit state passing.
The state carries the plugin's own fields together with the part of the host
(browser) it talks to: the timer table behind `window.setTimeout` /
`window.clearTimeout`, the overlay elements made by `document.createElement`,
and the nodes of `document.head` that `document.getElementById` can find.

Conventions.
* JavaScript strings are Lean strings; the three characters the code inspects
  (backslash, single quote, line feed) are single code units, so working on
  characters agrees with working on UTF-16 code units.
* Finite JavaScript numbers are rationals (every finite double is one, and
  `Math.max` is exact); the non-finite numbers and the non-numbers are separate
  constructors of `JsValue`.
* Time is a rational number of milliseconds. `window.setTimeout` takes its
  delay as a 32-bit signed integer (`timeoutMs`): a timer set at clock `c` with
  delay `d` becomes due at `c + timeoutMs d` and fires when the clock reaches
  that time, unless it was cleared before.
* `style.fontFamily` is a parsed CSS property. The texts whose reading is
  certain (a double-quoted string of characters that stand for themselves,
  followed by `, monospace`) are stored as written; for every other text the
  reading is taken from the host (`Host.fontFamilyValue`).
* Editors and views are handles (numbers); what a handle shows (whether the
  view is connected, its editor element, the cursor line) is read from the host
  at the moment the code asks.
* An overlay element counts as appended while its `parent` is set; elements
  appended to an editor element include all that are in the visible document.
-/

namespace TypingTracker

/-! ## JavaScript string primitives -/

/-- White space and line terminators removed by `String.prototype.trim`. -/
def isJsWhiteSpace (c : Char) : Bool :=
  c.toNat = 0x09 || c.toNat = 0x0A || c.toNat = 0x0B || c.toNat = 0x0C ||
  c.toNat = 0x0D || c.toNat = 0x20 || c.toNat = 0xA0 || c.toNat = 0x1680 ||
  (0x2000 ≤ c.toNat && c.toNat ≤ 0x200A) ||
  c.toNat = 0x2028 || c.toNat = 0x2029 || c.toNat = 0x202F ||
  c.toNat = 0x205F || c.toNat = 0x3000 || c.toNat = 0xFEFF

/-- The characters of `s.trim()`. -/
def trimChars (cs : List Char) : List Char :=
  ((cs.dropWhile isJsWhiteSpace).reverse.dropWhile isJsWhiteSpace).reverse

/-- Model of `s.trim()`. -/
def jsTrim (s : String) : String := ⟨trimChars s.data⟩

/-- Model of `s.startsWith(p)`. -/
def jsStartsWith (s p : String) : Bool := p.data.isPrefixOf s.data

/-- One global `replace` whose pattern matches the single character `c`:
every occurrence of `c` becomes the characters `r`. -/
def replaceAllChar (c : Char) (r : List Char) : List Char → List Char
  | [] => []
  | x :: xs => (if x = c then r else [x]) ++ replaceAllChar c r xs

/-- The characters of `escapeCssString(value)` (source line 184): three global
replacements in sequence, backslash, then single quote, then line feed. -/
def escapeCssChars (cs : List Char) : List Char :=
  replaceAllChar '\n' [' ']
    (replaceAllChar '\'' ['\\', '\'']
      (replaceAllChar '\\' ['\\', '\\'] cs))

/-- Model of `escapeCssString(value)`. -/
def escapeCssString (value : String) : String := ⟨escapeCssChars value.data⟩

/-- Whether CSS takes the character for a line break: line feed, and carriage
return and form feed, which CSS turns into line feeds before it reads. -/
def isCssNewline (c : Char) : Bool :=
  c.toNat = 0x0A || c.toNat = 0x0D || c.toNat = 0x0C

/-- Reader for the body of a single-quoted CSS string: the input starts right
after the opening quote; a backslash followed by a backslash or a single quote
denotes that character; an unescaped single quote closes the string. A raw
line break (line feed, carriage return or form feed) ends the string as a bad
string, which is a failure, and CSS reads NUL as U+FFFD. The result is the
string's content and the text after the closing quote. Any other escape, or
running out of input before the closing quote, is a failure too. -/
def readCssStringBody : List Char → Option (List Char × List Char)
  | [] => none
  | '\'' :: rest => some ([], rest)
  | '\\' :: c :: rest =>
      if c = '\\' ∨ c = '\'' then
        (readCssStringBody rest).map (fun r => (c :: r.1, r.2))
      else none
  | c :: rest =>
      if c = '\\' ∨ isCssNewline c = true then none
      else (readCssStringBody rest).map
        (fun r => ((if c.toNat = 0 then Char.ofNat 0xFFFD else c) :: r.1, r.2))

/-- Line feeds collapsed to spaces. -/
def collapseLineFeeds (cs : List Char) : List Char :=
  cs.map (fun c => if c = '\n' then ' ' else c)

/-- Text before the family name in the `@font-face` template
(source lines 171-173). -/
def fontFacePrefix : String :=
  "\n            @font-face \x7b\n                font-family: '"

/-- Text between the family name and the URL in the template
(source lines 173-174). -/
def fontFaceMiddle : String :=
  "';\n                src: url('"

/-- Text after the URL in the template (source lines 174-176). -/
def fontFaceSuffix : String :=
  "') format('truetype');\n            \x7d\n        "

/-- The template literal of source lines 171-176, with the escaped family and
URL spliced in. -/
def fontFaceText (family url : String) : String :=
  fontFacePrefix ++ family ++ fontFaceMiddle ++ url ++ fontFaceSuffix

/-- Characters `encodeURIComponent` leaves as they are. -/
def isUriUnreserved (c : Char) : Bool :=
  c.isAlphanum || c = '-' || c = '_' || c = '.' || c = '!' || c = '~' ||
  c = '*' || c = '\'' || c = '(' || c = ')'

/-- Upper-case hexadecimal digit of a number below 16. -/
def hexDigitUpper (n : Nat) : Char :=
  if n < 10 then Char.ofNat (48 + n) else Char.ofNat (55 + n)

/-- Percent-encoding of one UTF-8 byte. -/
def percentByte (b : UInt8) : List Char :=
  ['%', hexDigitUpper (b.toNat / 16), hexDigitUpper (b.toNat % 16)]

/-- Model of the host function `encodeURIComponent` on well-formed strings. -/
def encodeURIComponent (s : String) : String :=
  ⟨s.data.flatMap (fun c =>
    if isUriUnreserved c then [c] else (String.utf8EncodeChar c).flatMap percentByte)⟩

/-! ## Settings -/

/-- A value that may be stored in `settings.inactivityThreshold`: a finite
number, one of the three non-finite numbers, or anything that is not a number
(a string, `null`, `undefined`, ...). -/
inductive JsValue where
  | finite (x : ℚ)
  | nan
  | posInfinity
  | negInfinity
  | notNumber
  deriving DecidableEq

/-- Model of `Number.isFinite`. -/
def numberIsFinite : JsValue → Bool
  | .finite _ => true
  | _ => false

/-- The plugin settings object. String fields that the code tests for presence
are `Option String`, with `none` for a missing (`undefined`) value. -/
structure Settings where
  inactivityThreshold : JsValue
  colorMode : String
  singleColor : String
  gradientStart : String
  gradientEnd : String
  gradientAnimate : Bool
  fontSource : String
  googleFont : Option String
  customFontUrl : Option String
  customFontFamily : Option String
  deriving DecidableEq

/-- The number stored in `DEFAULT_SETTINGS.inactivityThreshold` (source line 7). -/
def defaultInactivityThreshold : ℚ := 60000

/-- The constant `DEFAULT_SETTINGS` (source lines 6-17). -/
def DEFAULT_SETTINGS : Settings where
  inactivityThreshold := .finite defaultInactivityThreshold
  colorMode := "rgb-animation"
  singleColor := "#FF0000"
  gradientStart := "#FF0000"
  gradientEnd := "#0000FF"
  gradientAnimate := false
  fontSource := "default"
  googleFont := some "Roboto Mono"
  customFontUrl := some ""
  customFontFamily := some ""

/-- The constant `GOOGLE_FONT_LINK_ID` (source line 4). -/
def GOOGLE_FONT_LINK_ID : String := "typing-tracker-google-font"

/-- The constant `CUSTOM_FONT_STYLE_ID` (source line 5). -/
def CUSTOM_FONT_STYLE_ID : String := "typing-tracker-custom-font"

/-- JavaScript truthiness of a string-valued field: missing and empty are falsy. -/
def jsTruthy : Option String → Bool
  | none => false
  | some s => s != ""

/-- What a template literal prints for a string-valued field. -/
def jsToString : Option String → String
  | none => "undefined"
  | some s => s

/-- The rational behind a finite number; only asked for when `numberIsFinite`
holds. -/
def JsValue.toRat : JsValue → ℚ
  | .finite x => x
  | _ => 0

/-- The delay computed in `handleTyping` (source lines 49-51):
`Number.isFinite(t) ? Math.max(250, t) : DEFAULT_SETTINGS.inactivityThreshold`. -/
def effectiveDelay (settings : Settings) : ℚ :=
  if numberIsFinite settings.inactivityThreshold then
    max 250 settings.inactivityThreshold.toRat
  else
    DEFAULT_SETTINGS.inactivityThreshold.toRat

/-! ## Host objects -/

/-- An overlay element made by `document.createElement('div')`: where it is
appended, its class list, its text and its inline style. -/
structure OverlayEl where
  parent : Option Nat
  classList : List String
  textContent : String
  properties : List (String × String)
  fontFamily : Option String
  top : Option String
  deriving DecidableEq

/-- A node of `document.head` that `getElementById` can see. -/
structure HeadNode where
  tagName : String
  id : String
  rel : String
  href : String
  textContent : String
  deriving DecidableEq

/-- A timer registered with `window.setTimeout` and not yet fired or cleared. -/
structure Timer where
  id : Nat
  setAt : ℚ
  delay : ℚ
  deriving DecidableEq

/-- The 32-bit signed integer the host makes of a number: the number is
truncated toward zero, reduced modulo 2^32, and taken as negative from 2^31
on. -/
def toInt32 (x : ℚ) : Int :=
  let n : Int := if 0 ≤ x then Int.floor x else -Int.floor (-x)
  let m : Int := n % 4294967296
  if 2147483648 ≤ m then m - 4294967296 else m

/-- The delay in milliseconds that `window.setTimeout` applies to the delay it
is handed: the delay as a 32-bit signed integer, a negative one counting as 0.
A whole number below 2^31 is applied as it is; 2^31 becomes 0. -/
def timeoutMs (delay : ℚ) : ℚ := max 0 ((toInt32 delay : Int) : ℚ)

/-- The time at which a timer fires. -/
def Timer.due (t : Timer) : ℚ := t.setAt + timeoutMs t.delay

/-- What a view handle shows when inspected: `view.contentEl.isConnected` and
the result of `view.contentEl.querySelector('.cm-editor')`. -/
structure ViewDom where
  isConnected : Bool
  cmEditor : Option Nat

/-- The host as observed at one instant: the views, the cursor line each
editor reports, the text of `new Date().toLocaleTimeString()`, and how its CSS
parser reads a text assigned to `style.fontFamily` (`none` when it rejects the
text, otherwise the value it keeps). -/
structure Host where
  view : Nat → ViewDom
  cursorLine : Nat → Int
  localeTime : String
  fontFamilyValue : String → Option String

/-- The plugin fields (source lines 21-24 and `settings`) together with the
host state the plugin acts on: clock and timer table, the overlay elements
created so far (an element is named by its index), and `document.head`. -/
structure State where
  settings : Settings
  timeoutId : Option Nat
  timestampEl : Option Nat
  pendingEditor : Option Nat
  pendingView : Option Nat
  clock : ℚ
  timers : List Timer
  nextTimerId : Nat
  elems : List OverlayEl
  head : List HeadNode
  deriving DecidableEq

/-- The plugin right after its constructor ran (source lines 19-25) and its
settings were loaded, in a host with no timer and no overlay element. -/
def init (settings : Settings) (clock : ℚ) (head : List HeadNode) : State where
  settings := settings
  timeoutId := none
  timestampEl := none
  pendingEditor := none
  pendingView := none
  clock := clock
  timers := []
  nextTimerId := 1
  elems := []
  head := head

/-! ## Element primitives (DOM) -/

/-- Apply `f` to the element at index `i`, if there is one. -/
def modifyNth {α : Type} (f : α → α) : Nat → List α → List α
  | _, [] => []
  | 0, x :: xs => f x :: xs
  | n + 1, x :: xs => x :: modifyNth f n xs

/-- Model of `classList.remove(...tokens)`. -/
def classListRemove (tokens : List String) (classList : List String) : List String :=
  classList.filter (fun c => !tokens.contains c)

/-- Model of `classList.add(token)`. -/
def classListAdd (token : String) (classList : List String) : List String :=
  if classList.contains token then classList else classList ++ [token]

/-- Model of `style.removeProperty(name)`. -/
def removeProperty (name : String) (ps : List (String × String)) : List (String × String) :=
  ps.filter (fun p => p.1 != name)

/-- Model of `style.setProperty(name, value)`: an empty value removes the
property, a present property is updated in place, a new one is appended. -/
def setProperty (name value : String) (ps : List (String × String)) : List (String × String) :=
  if value = "" then removeProperty name ps
  else if ps.any (fun p => p.1 == name) then
    ps.map (fun p => if p.1 = name then (name, value) else p)
  else ps ++ [(name, value)]

/-- Characters that stand for themselves inside a double-quoted CSS string:
all but the double quote, the backslash, the line breaks of CSS and NUL. -/
def isPlainCssChar (c : Char) : Bool :=
  !(c.toNat = 0x22 || c.toNat = 0x5C || isCssNewline c || c.toNat = 0)

/-- Whether every character of a font name stands for itself inside a
double-quoted CSS string. -/
def isPlainFamilyName (name : String) : Bool := name.data.all isPlainCssChar

/-- Whether a text is a double quote, characters that stand for themselves, a
double quote, and then `, monospace`: a CSS font family list of one quoted
name and the generic family. -/
def isQuotedFamilyWithFallback (text : String) : Bool :=
  match text.data with
  | [] => false
  | c :: rest =>
    c.toNat = 0x22 &&
    (rest.takeWhile (fun x => x.toNat != 0x22)).all isPlainCssChar &&
    rest.dropWhile (fun x => x.toNat != 0x22) == "\", monospace".data

/-- Model of the assignment `style.fontFamily = text`. A quoted plain name
with the monospace fallback is valid CSS and is kept as written. Any other
text is read by the host: kept as the host's value, or dropped, the earlier
font family staying in force, when the host rejects it. -/
def setFontFamily (host : Host) (text : String) (el : OverlayEl) : OverlayEl :=
  if isQuotedFamilyWithFallback text then { el with fontFamily := some text }
  else
    match host.fontFamilyValue text with
    | some value => { el with fontFamily := some value }
    | none => el

/-- Model of `document.getElementById(id)`: the first node with that id. -/
def getElementById (id : String) (head : List HeadNode) : Option HeadNode :=
  head.find? (fun n => n.id = id)

/-- Mutation `f` of the node `getElementById(id)` returns, in place. -/
def updateById (id : String) (f : HeadNode → HeadNode) : List HeadNode → List HeadNode
  | [] => []
  | n :: ns => if n.id = id then f n :: ns else n :: updateById id f ns

/-- Model of `document.getElementById(id)?.remove()`. -/
def removeById (id : String) : List HeadNode → List HeadNode
  | [] => []
  | n :: ns => if n.id = id then ns else n :: removeById id ns

/-- Number of nodes carrying the id. -/
def countId (id : String) (head : List HeadNode) : Nat :=
  (head.filter (fun n => n.id = id)).length

/-! ## Plugin methods -/

/-- Apply an element mutation to the element `this.timestampEl` refers to;
nothing happens when the field is null. -/
def onTimestampEl (f : OverlayEl → OverlayEl) (st : State) : State :=
  match st.timestampEl with
  | none => st
  | some i => { st with elems := modifyNth f i st.elems }

/-- Model of `window.clearTimeout(id)`: the timer with that id, if pending, is
dropped and will never fire. -/
def clearTimeout (id : Nat) (st : State) : State :=
  { st with timers := st.timers.filter (fun t => t.id != id) }

/-- Model of `window.setTimeout(callback, delay)`: the timer is registered at
the current clock under the next free id, which is returned. All timers of the
plugin share one callback, `timerCallback` below. -/
def setTimeout (delay : ℚ) (st : State) : Nat × State :=
  (st.nextTimerId,
    { st with
      timers := st.timers ++ [{ id := st.nextTimerId, setAt := st.clock, delay := delay }]
      nextTimerId := st.nextTimerId + 1 })

/-- Model of `clearInactivityTimer` (source lines 58-63). -/
def clearInactivityTimer (st : State) : State :=
  match st.timeoutId with
  | none => st
  | some id => { clearTimeout id st with timeoutId := none }

/-- Model of `removeTimestamp` (source lines 64-69). -/
def removeTimestamp (st : State) : State :=
  match st.timestampEl with
  | none => st
  | some _ =>
    { onTimestampEl (fun el => { el with parent := none }) st with timestampEl := none }

/-- The four colour-mode classes `updateColors` clears (source line 90). -/
def colorModeClasses : List String :=
  ["rgb-animation", "single-color", "static-gradient", "animated-gradient"]

/-- The four custom properties `updateColors` clears (source lines 91-94). -/
def colorProperties : List String :=
  ["--custom-color", "--custom-gradient", "--gradient-start", "--gradient-end"]

/-- The element part of `updateColors` (source lines 90-111). -/
def updateColorsEl (settings : Settings) (el : OverlayEl) : OverlayEl :=
  let el := { el with classList := (classListRemove
    ["rgb-animation", "single-color", "static-gradient", "animated-gradient"] el.classList) }
  let el := { el with properties := removeProperty "--custom-color" el.properties }
  let el := { el with properties := removeProperty "--custom-gradient" el.properties }
  let el := { el with properties := removeProperty "--gradient-start" el.properties }
  let el := { el with properties := removeProperty "--gradient-end" el.properties }
  if settings.colorMode = "rgb-animation" then
    { el with classList := classListAdd "rgb-animation" el.classList }
  else if settings.colorMode = "single" then
    let el := { el with classList := classListAdd "single-color" el.classList }
    { el with properties := setProperty "--custom-color" settings.singleColor el.properties }
  else if settings.gradientAnimate then
    let el := { el with classList := classListAdd "animated-gradient" el.classList }
    let el := { el with properties :=
      (setProperty "--gradient-start" settings.gradientStart el.properties) }
    { el with properties := setProperty "--gradient-end" settings.gradientEnd el.properties }
  else
    let el := { el with classList := classListAdd "static-gradient" el.classList }
    { el with properties := (setProperty "--custom-gradient"
        ("linear-gradient(to right, " ++ settings.gradientStart ++ ", " ++
          settings.gradientEnd ++ ")") el.properties) }

/-- Model of `updateColors` (source lines 87-112). -/
def updateColors (st : State) : State :=
  onTimestampEl (updateColorsEl st.settings) st

/-- The template literal of source lines 121 and 124: the name between double
quotes, followed by `, monospace`. -/
def quotedFamily (name : String) : String := "\"" ++ name ++ "\", monospace"

/-- The element part of `updateFonts` (source lines 116-126). -/
def updateFontsEl (host : Host) (settings : Settings) (el : OverlayEl) : OverlayEl :=
  if settings.fontSource = "default" then
    setFontFamily host "\"Roboto Mono\", monospace" el
  else if settings.fontSource = "google" then
    setFontFamily host (quotedFamily (jsToString settings.googleFont)) el
  else if settings.fontSource = "custom" then
    setFontFamily host (quotedFamily (jsToString settings.customFontFamily)) el
  else el

/-- Model of `updateFonts` (source lines 113-127), the host being the one that
parses the assigned text. -/
def updateFonts (host : Host) (st : State) : State :=
  onTimestampEl (updateFontsEl host st.settings) st

/-- Model of `showTimestamp` (source lines 70-86), the host being observed at
the moment of the call. -/
def showTimestamp (host : Host) (editor view : Nat) (st : State) : State :=
  if !(host.view view).isConnected then st
  else
    match (host.view view).cmEditor with
    | none => st
    | some editorEl =>
      let stopTime := host.localeTime
      let el : OverlayEl :=
        { parent := none, classList := ["typing-tracker-timestamp"],
          textContent := "Stopped typing at: " ++ stopTime,
          properties := [], fontFamily := none, top := none }
      let st := { st with timestampEl := some st.elems.length, elems := st.elems ++ [el] }
      let st := updateColors st
      let st := updateFonts host st
      let st := onTimestampEl (fun e => { e with parent := some editorEl }) st
      let topOffset : Int := max 0 (host.cursorLine editor) * 20 + 40
      onTimestampEl (fun e => { e with top := some (toString topOffset ++ "px") }) st

/-- The callback handed to `setTimeout` (source lines 52-56). -/
def timerCallback (host : Host) (st : State) : State :=
  match st.pendingEditor, st.pendingView with
  | some editor, some view => showTimestamp host editor view st
  | _, _ => st

/-- Model of `handleTyping` (source lines 44-57). -/
def handleTyping (editor view : Nat) (st : State) : State :=
  let st := { st with pendingEditor := some editor, pendingView := some view }
  let st := clearInactivityTimer st
  let st := removeTimestamp st
  let delay := effectiveDelay st.settings
  let r := setTimeout delay st
  { r.2 with timeoutId := some r.1 }

/-- Model of `removeInjectedFontNodes` (source lines 178-182). -/
def removeInjectedFontNodes (st : State) : State :=
  let st := { st with head := removeById GOOGLE_FONT_LINK_ID st.head }
  { st with head := removeById CUSTOM_FONT_STYLE_ID st.head }

/-- Model of `onunload` (source lines 37-43). -/
def onunload (st : State) : State :=
  let st := clearInactivityTimer st
  let st := { st with pendingEditor := none }
  let st := { st with pendingView := none }
  let st := removeTimestamp st
  removeInjectedFontNodes st

/-- Model of `loadGoogleFont` (source lines 142-155). -/
def loadGoogleFont (fontName : String) (st : State) : State :=
  let cleanedName := jsTrim fontName
  if cleanedName = "" then st
  else
    let head :=
      match getElementById GOOGLE_FONT_LINK_ID st.head with
      | some _ => st.head
      | none => st.head ++ [{ tagName := "link", id := GOOGLE_FONT_LINK_ID,
                              rel := "stylesheet", href := "", textContent := "" }]
    let encodedFontName := encodeURIComponent cleanedName
    { st with head := (updateById GOOGLE_FONT_LINK_ID (fun n => { n with href :=
        ("https://fonts.googleapis.com/css2?family=" ++ encodedFontName ++
          ":wght@400;700&display=swap") }) head) }

/-- Model of `loadCustomFont` (source lines 156-177). -/
def loadCustomFont (st : State) : State :=
  let customFontUrl := st.settings.customFontUrl
  let customFontFamily := st.settings.customFontFamily
  if !jsTruthy customFontUrl || !jsTruthy customFontFamily then st
  else
    let normalizedUrl := jsTrim (jsToString customFontUrl)
    if !jsStartsWith normalizedUrl "https://" then st
    else
      let head :=
        match getElementById CUSTOM_FONT_STYLE_ID st.head with
        | some _ => st.head
        | none => st.head ++ [{ tagName := "style", id := CUSTOM_FONT_STYLE_ID,
                                rel := "", href := "", textContent := "" }]
      let family := escapeCssString (jsTrim (jsToString customFontFamily))
      let url := escapeCssString normalizedUrl
      { st with head := (updateById CUSTOM_FONT_STYLE_ID
          (fun n => { n with textContent := fontFaceText family url }) head) }

/-! ## The event loop -/

/-- A pending timer fires: it leaves the timer table and the callback runs.
`none` when no timer with that id is pending. -/
def fireTimer (host : Host) (id : Nat) (st : State) : Option State :=
  if st.timers.any (fun t => t.id == id) then
    some (timerCallback host (clearTimeout id st))
  else none

/-- The pending timer that is due first; among equally due timers the one
registered first. -/
def earliestTimer : List Timer → Option Timer
  | [] => none
  | t :: ts =>
    match earliestTimer ts with
    | none => some t
    | some u => if u.due < t.due then some u else some t

/-- Let time pass until `T`: while the earliest pending timer is due at or
before `T`, move the clock to its due time and fire it there, the host being
observed at that time; then set the clock to `T`. Each round removes a timer
and the callback registers none, so `fuel` rounds suffice when `fuel` is the
number of pending timers. -/
def advance (host : ℚ → Host) (T : ℚ) : Nat → State → State
  | 0, st => { st with clock := T }
  | fuel + 1, st =>
    match earliestTimer st.timers with
    | none => { st with clock := T }
    | some t =>
      if t.due ≤ T then
        advance host T fuel
          (timerCallback (host t.due) (clearTimeout t.id { st with clock := t.due }))
      else { st with clock := T }

/-- The state at time `T` when nothing but timers happens until then. -/
def runUntil (host : ℚ → Host) (T : ℚ) (st : State) : State :=
  advance host T st.timers.length st

/-- An edit notification: when it arrives and the handles it carries. -/
structure Edit where
  time : ℚ
  editor : Nat
  view : Nat

/-- Time passes until the edit arrives, then `handleTyping` runs. -/
def editAt (host : ℚ → Host) (st : State) (e : Edit) : State :=
  handleTyping e.editor e.view (runUntil host e.time st)

/-- The edits in order, each at its time. -/
def runEdits (host : ℚ → Host) (st : State) (edits : List Edit) : State :=
  edits.foldl (editAt host) st

/-- The state at time `T` of a run that starts in `st` and receives `edits`:
the edits that arrived by `T` are handled, then time passes until `T`. -/
def stateAt (host : ℚ → Host) (st : State) (edits : List Edit) (T : ℚ) : State :=
  runUntil host T (runEdits host st (edits.filter (fun e => e.time ≤ T)))

/-- Every edit after the first follows its predecessor (the first one follows
time `t`) strictly later and by less than `d`. -/
def closelySpaced (d : ℚ) : ℚ → List Edit → Prop
  | _, [] => True
  | t, e :: es => t < e.time ∧ e.time < t + d ∧ closelySpaced d e.time es

/-- Arrival time of the last edit of a run whose first edit arrives at `t`. -/
def lastTime : ℚ → List Edit → ℚ
  | t, [] => t
  | _, e :: es => lastTime e.time es

/-- Handles of the last edit. -/
def lastEdit : Edit → List Edit → Edit
  | e, [] => e
  | _, e :: es => lastEdit e es

/-- The overlay elements that are appended to an editor element. -/
def attachedOverlays (st : State) : List OverlayEl :=
  st.elems.filter (fun el => el.parent.isSome)

/-- What can happen to the plugin, in any order: an edit notification, a
pending timer firing, teardown, the calls the settings tab makes, a change of
the settings object, and time passing. -/
inductive Event where
  | handleTyping (editor view : Nat)
  | timerFires (host : Host) (id : Nat)
  | onunload
  | updateColors
  | updateFonts (host : Host)
  | loadGoogleFont (fontName : String)
  | loadCustomFont
  | setSettings (settings : Settings)
  | tick (clock : ℚ)

/-- One event; `none` when the event cannot happen (no such timer pending). -/
def step (st : State) : Event → Option State
  | .handleTyping editor view => some (handleTyping editor view st)
  | .timerFires host id => fireTimer host id st
  | .onunload => some (onunload st)
  | .updateColors => some (updateColors st)
  | .updateFonts host => some (updateFonts host st)
  | .loadGoogleFont fontName => some (loadGoogleFont fontName st)
  | .loadCustomFont => some (loadCustomFont st)
  | .setSettings settings => some { st with settings := settings }
  | .tick clock => some { st with clock := clock }

/-- States reachable from the freshly constructed plugin. -/
inductive Reachable : State → Prop where
  | init (settings : Settings) (clock : ℚ) (head : List HeadNode) :
      Reachable (init settings clock head)
  | step {st st2 : State} (ev : Event) :
      Reachable st → step st ev = some st2 → Reachable st2

/-- State invariant: every pending timer is the one `timeoutId` names and at
most one is pending; every appended overlay element is the one `timestampEl`
refers to; and while a timer is pending `timestampEl` is null. -/
structure Inv (st : State) : Prop where
  timers_tracked : ∀ t ∈ st.timers, st.timeoutId = some t.id
  timers_le_one : st.timers.length ≤ 1
  overlays_tracked : ∀ (i : Nat) (el : OverlayEl), st.elems[i]? = some el →
    el.parent.isSome = true →
    st.timestampEl = some i
  pending_no_overlay : st.timers ≠ [] → st.timestampEl = none

/-- A font operation of the resource injector, `loadCustomFont` with the
settings in force when it is called. -/
inductive FontOp where
  | loadGoogleFont (fontName : String)
  | loadCustomFont (settings : Settings)
  | removeInjectedFontNodes

/-- One font operation. -/
def FontOp.run (st : State) : FontOp → State
  | .loadGoogleFont fontName => TypingTracker.loadGoogleFont fontName st
  | .loadCustomFont settings => TypingTracker.loadCustomFont { st with settings := settings }
  | .removeInjectedFontNodes => TypingTracker.removeInjectedFontNodes st

/-! ## The specification's view of theming -/

/-- The colour-mode classes an element carries, in order. -/
def modeClassesOf (el : OverlayEl) : List String :=
  el.classList.filter (fun c => colorModeClasses.contains c)

/-- The colour custom properties an element carries, in order. -/
def colorPropertiesOf (el : OverlayEl) : List (String × String) :=
  el.properties.filter (fun p => colorProperties.contains p.1)

/-- The mode class the specification assigns to a configuration:
`rgb-animation` for colour mode `rgb-animation`, `single-color` for `single`,
otherwise `animated-gradient` or `static-gradient` according to
`gradientAnimate`. -/
def specModeClass (settings : Settings) : String :=
  if settings.colorMode = "rgb-animation" then "rgb-animation"
  else if settings.colorMode = "single" then "single-color"
  else if settings.gradientAnimate then "animated-gradient"
  else "static-gradient"

/-- The custom properties that belong to the mode of a configuration: none for
the RGB animation, the custom colour for a single colour, the two gradient ends
for an animated gradient, the gradient itself for a static one. -/
def specModeProperties (settings : Settings) : List String :=
  if settings.colorMode = "rgb-animation" then []
  else if settings.colorMode = "single" then ["--custom-color"]
  else if settings.gradientAnimate then ["--gradient-start", "--gradient-end"]
  else ["--custom-gradient"]

/-- The plugin between an edit and the firing of its timer: the one pending
timer is the one set at time `t` with the effective delay of `settings`,
`timeoutId` names it, no overlay element is appended, `count` overlay elements
have been created so far, and the recorded pair is `(editor, view)`. -/
structure Waiting (settings : Settings) (t : ℚ) (count editor view : Nat) (st : State) :
    Prop where
  timer : ∃ id, st.timers = [{ id := id, setAt := t, delay := effectiveDelay settings }] ∧
    st.timeoutId = some id
  no_overlay : st.timestampEl = none
  detached : ∀ (i : Nat) (el : OverlayEl), st.elems[i]? = some el → el.parent = none
  created : st.elems.length = count
  editor_recorded : st.pendingEditor = some editor
  view_recorded : st.pendingView = some view
  settings_eq : st.settings = settings

/-! ## Concrete inputs -/

/-- A host in which every view is connected and holds the editor element 7,
every cursor is on line 3, and the clock reads ten. Its CSS parser is asked
about no text in the examples, which assign quoted plain names only; it is set
to reject. -/
def attachedHost : Host where
  view := fun _ => { isConnected := true, cmEditor := some 7 }
  cursorLine := fun _ => 3
  localeTime := "10:00:00"
  fontFamilyValue := fun _ => none

/-- The default settings with a threshold of one second. -/
def oneSecondSettings : Settings :=
  { DEFAULT_SETTINGS with inactivityThreshold := .finite 1000 }

/-- A fresh plugin with the one-second threshold, at time 0. -/
def freshOneSecond : State := init oneSecondSettings 0 []

/-- An overlay element as `showTimestamp` leaves it under the default settings. -/
def defaultOverlay : OverlayEl where
  parent := some 7
  classList := ["typing-tracker-timestamp", "rgb-animation"]
  textContent := "Stopped typing at: 10:00:00"
  properties := []
  fontFamily := some "\"Roboto Mono\", monospace"
  top := some "100px"

/-- An overlay element styled as an animated gradient. -/
def gradientOverlay : OverlayEl where
  parent := some 7
  classList := ["typing-tracker-timestamp", "animated-gradient"]
  textContent := "Stopped typing at: 10:00:00"
  properties := [("--gradient-start", "#FF0000"), ("--gradient-end", "#0000FF")]
  fontFamily := some "\"Roboto Mono\", monospace"
  top := some "100px"

/-- A Google font link node. -/
def googleNode : HeadNode where
  tagName := "link"
  id := GOOGLE_FONT_LINK_ID
  rel := "stylesheet"
  href := "https://fonts.googleapis.com/css2?family=Roboto%20Mono:wght@400;700&display=swap"
  textContent := ""

/-- A custom font style node. -/
def customNode : HeadNode where
  tagName := "style"
  id := CUSTOM_FONT_STYLE_ID
  rel := ""
  href := ""
  textContent := "old"

/-- A plugin showing `overlay` under `settings`, after its timer 1 fired, with
both font nodes in the document. -/
def visibleState (settings : Settings) (overlay : OverlayEl) : State where
  settings := settings
  timeoutId := some 1
  timestampEl := some 0
  pendingEditor := some 1
  pendingView := some 2
  clock := 60000
  timers := []
  nextTimerId := 2
  elems := [overlay]
  head := [googleNode, customNode]

/-- Settings whose custom font URL is not secure. -/
def insecureSettings : Settings :=
  { DEFAULT_SETTINGS with
    fontSource := "custom"
    customFontUrl := some "http://insecure.example/font.ttf"
    customFontFamily := some "MyFont" }

/-- Settings whose custom font URL is secure but starts with a blank. -/
def paddedUrlSettings : Settings :=
  { DEFAULT_SETTINGS with
    fontSource := "custom"
    customFontUrl := some " https://fonts.example/font.ttf"
    customFontFamily := some "MyFont" }

/-- Settings that select a Google font with an empty name. -/
def emptyGoogleSettings : Settings :=
  { DEFAULT_SETTINGS with fontSource := "google", googleFont := some "" }

/-- Settings that select the single colour mode. -/
def singleColorSettings : Settings :=
  { DEFAULT_SETTINGS with colorMode := "single" }

/-- A plugin that handled one edit under the default settings at time 0. -/
def afterOneEdit : State := handleTyping 1 2 (init DEFAULT_SETTINGS 0 [])

/-- Settings whose custom font family holds a single quote and a backslash. -/
def quotedFamilySettings : Settings :=
  { DEFAULT_SETTINGS with
    fontSource := "custom"
    customFontUrl := some "https://fonts.example/font.ttf"
    customFontFamily := some "a'b\\c" }

/-- Settings whose custom font family holds a carriage return. -/
def carriageReturnSettings : Settings :=
  { DEFAULT_SETTINGS with
    fontSource := "custom"
    customFontUrl := some "https://fonts.example/font.ttf"
    customFontFamily := some "a\rb" }

/-- The default settings with the given value as inactivity threshold. -/
def withThreshold (v : JsValue) : Settings :=
  { DEFAULT_SETTINGS with inactivityThreshold := v }

/-- A fresh plugin whose threshold is 2^31 ms, at time 0. -/
def freshHugeThreshold : State := init (withThreshold (.finite 2147483648)) 0 []

/-- A fresh plugin whose threshold is 250.5 ms, at time 0. -/
def freshHalfMillisecond : State := init (withThreshold (.finite (501 / 2))) 0 []

/-! ## Lemmas on strings -/

theorem replaceAllChar_append (c : Char) (r a b : List Char) :
    replaceAllChar c r (a ++ b) = replaceAllChar c r a ++ replaceAllChar c r b := by
  induction a with
  | nil => rfl
  | cons x xs ih => simp [replaceAllChar, ih]

theorem escapeCssChars_cons (c : Char) (cs : List Char) :
    escapeCssChars (c :: cs) =
      (if c = '\\' then ['\\', '\\'] else if c = '\'' then ['\\', '\'']
        else if c = '\n' then [' '] else [c]) ++ escapeCssChars cs := by
  unfold escapeCssChars
  by_cases h1 : c = '\\'
  · subst h1
    simp [replaceAllChar, replaceAllChar_append]
  · by_cases h2 : c = '\''
    · subst h2
      simp [replaceAllChar, replaceAllChar_append]
    · by_cases h3 : c = '\n'
      · subst h3
        simp [replaceAllChar, replaceAllChar_append]
      · simp [replaceAllChar, replaceAllChar_append, h1, h2, h3]

theorem readCssStringBody_backslash (c : Char) (rest : List Char)
    (h : c = '\\' ∨ c = '\'') :
    readCssStringBody ('\\' :: c :: rest) =
      (readCssStringBody rest).map (fun r => (c :: r.1, r.2)) := by
  simp [readCssStringBody, h]

theorem readCssStringBody_plain (c : Char) (rest : List Char)
    (h1 : c ≠ '\\') (h2 : c ≠ '\'') (h3 : isCssNewline c = false) (h4 : c.toNat ≠ 0) :
    readCssStringBody (c :: rest) =
      (readCssStringBody rest).map (fun r => (c :: r.1, r.2)) := by
  conv_lhs => unfold readCssStringBody
  split
  · simp_all
  · simp_all
  · simp_all
  · rename_i heq
    obtain ⟨rfl, rfl⟩ := List.cons.inj heq
    simp [h1, h3, h4]

theorem readCssStringBody_newline (c : Char) (rest : List Char)
    (h : isCssNewline c = true) : readCssStringBody (c :: rest) = none := by
  have h1 : c ≠ '\\' := by
    intro e
    rw [e] at h
    exact absurd h (by decide)
  have h2 : c ≠ '\'' := by
    intro e
    rw [e] at h
    exact absurd h (by decide)
  conv_lhs => unfold readCssStringBody
  split
  · simp_all
  · simp_all
  · simp_all
  · rename_i heq
    obtain ⟨rfl, rfl⟩ := List.cons.inj heq
    simp [h]

/-- Characters of a string that CSS reads back as they are once line feeds are
collapsed: no carriage return, no form feed, no NUL. -/
theorem readCssStringBody_escape (cs rest : List Char)
    (hcs : ∀ c ∈ cs, c.toNat ≠ 0x0D ∧ c.toNat ≠ 0x0C ∧ c.toNat ≠ 0) :
    readCssStringBody (escapeCssChars cs ++ '\'' :: rest) =
      some (collapseLineFeeds cs, rest) := by
  induction cs with
  | nil => simp [escapeCssChars, replaceAllChar, readCssStringBody, collapseLineFeeds]
  | cons c cs ih =>
    have ih2 := ih (fun x hx => hcs x (List.mem_cons_of_mem _ hx))
    obtain ⟨g1, g2, g3⟩ := hcs c (List.mem_cons_self _ _)
    rw [escapeCssChars_cons]
    by_cases h1 : c = '\\'
    · subst h1
      simp [readCssStringBody_backslash, ih2, collapseLineFeeds]
    · by_cases h2 : c = '\''
      · subst h2
        simp [readCssStringBody_backslash, ih2, collapseLineFeeds]
      · by_cases h3 : c = '\n'
        · subst h3
          rw [if_neg (by decide), if_neg (by decide), if_pos rfl]
          simp only [List.append_assoc, List.singleton_append, List.cons_append,
            List.nil_append]
          rw [readCssStringBody_plain ' ' _ (by decide) (by decide) (by decide) (by decide), ih2]
          simp [collapseLineFeeds]
        · have hn : isCssNewline c = false := by
            have h3n : c.toNat ≠ 0x0A := by
              intro e
              apply h3
              rw [← Char.ofNat_toNat c, e]
            simp [isCssNewline, g1, g2, h3n]
          rw [if_neg h1, if_neg h2, if_neg h3]
          simp only [List.append_assoc, List.singleton_append, List.cons_append,
            List.nil_append]
          rw [readCssStringBody_plain c _ h1 h2 hn g3, ih2]
          simp [collapseLineFeeds, h3]

/-! ## Lemmas on `document.head` -/

theorem getElementById_append_none (id : String) (head : List HeadNode) (n : HeadNode)
    (h : getElementById id head = none) :
    getElementById id (head ++ [n]) = if n.id = id then some n else none := by
  unfold getElementById at *
  simp [List.find?_append, h]

theorem getElementById_updateById (id : String) (f : HeadNode → HeadNode)
    (head : List HeadNode) (hf : ∀ n, (f n).id = n.id) :
    getElementById id (updateById id f head) = (getElementById id head).map f := by
  induction head with
  | nil => rfl
  | cons n ns ih =>
    unfold getElementById at *
    by_cases h : n.id = id
    · simp [updateById, h, hf]
    · simp [updateById, h, ih]

theorem getElementById_updateById_ne (id id2 : String) (f : HeadNode → HeadNode)
    (head : List HeadNode) (hf : ∀ n, (f n).id = n.id) (hne : id2 ≠ id) :
    getElementById id2 (updateById id f head) = getElementById id2 head := by
  induction head with
  | nil => rfl
  | cons n ns ih =>
    unfold getElementById at *
    by_cases h : n.id = id
    · have h2 : ¬ n.id = id2 := fun e => hne (e.symm.trans h)
      have h3 : ¬ (f n).id = id2 := by rw [hf]; exact h2
      rw [updateById, if_pos h, List.find?_cons, List.find?_cons]
      simp [h2, h3]
    · rw [updateById, if_neg h, List.find?_cons, List.find?_cons, ih]

theorem map_id_updateById (id : String) (f : HeadNode → HeadNode) (head : List HeadNode)
    (hf : ∀ n, (f n).id = n.id) :
    (updateById id f head).map (fun m => m.id) = head.map (fun m => m.id) := by
  induction head with
  | nil => rfl
  | cons n ns ih =>
    by_cases h : n.id = id
    · rw [updateById, if_pos h]
      simp [hf]
    · rw [updateById, if_neg h]
      simp [ih]

/-! ## Lemmas on the plugin methods -/

theorem clearInactivityTimer_frame (st : State) :
    (clearInactivityTimer st).settings = st.settings ∧
    (clearInactivityTimer st).clock = st.clock ∧
    (clearInactivityTimer st).nextTimerId = st.nextTimerId ∧
    (clearInactivityTimer st).elems = st.elems ∧
    (clearInactivityTimer st).timestampEl = st.timestampEl ∧
    (clearInactivityTimer st).pendingEditor = st.pendingEditor ∧
    (clearInactivityTimer st).pendingView = st.pendingView ∧
    (clearInactivityTimer st).head = st.head ∧
    (clearInactivityTimer st).timeoutId = none := by
  unfold clearInactivityTimer clearTimeout
  cases h : st.timeoutId <;> simp [h]

theorem removeTimestamp_frame (st : State) :
    (removeTimestamp st).settings = st.settings ∧
    (removeTimestamp st).clock = st.clock ∧
    (removeTimestamp st).nextTimerId = st.nextTimerId ∧
    (removeTimestamp st).timers = st.timers ∧
    (removeTimestamp st).timeoutId = st.timeoutId ∧
    (removeTimestamp st).pendingEditor = st.pendingEditor ∧
    (removeTimestamp st).pendingView = st.pendingView ∧
    (removeTimestamp st).head = st.head ∧
    (removeTimestamp st).timestampEl = none := by
  unfold removeTimestamp onTimestampEl
  cases h : st.timestampEl <;> simp [h]

theorem handleTyping_timers (editor view : Nat) (st : State) :
    (handleTyping editor view st).timers =
      (clearInactivityTimer st).timers ++
        [{ id := st.nextTimerId, setAt := st.clock, delay := effectiveDelay st.settings }] := by
  have hc := clearInactivityTimer_frame
    { st with pendingEditor := some editor, pendingView := some view }
  have hr := removeTimestamp_frame (clearInactivityTimer
    { st with pendingEditor := some editor, pendingView := some view })
  obtain ⟨c1, c2, c3, -⟩ := hc
  obtain ⟨r1, r2, r3, r4, -⟩ := hr
  simp only [handleTyping, setTimeout, r1, r2, r3, r4, c1, c2, c3]
  congr 1
  unfold clearInactivityTimer clearTimeout
  cases h : st.timeoutId <;> simp [h]

/-- C7. The delay `handleTyping` hands to `setTimeout` is `max(250, t)` when the
configured threshold `t` is a finite number and the default 60000 otherwise;
it is at least 250 for every value of the threshold, zero and negative ones
included. -/
theorem handleTyping_delay_clamped (editor view : Nat) (st : State) :
    (handleTyping editor view st).timers.getLast? =
      some { id := st.nextTimerId, setAt := st.clock, delay := effectiveDelay st.settings } ∧
    effectiveDelay st.settings =
      (match st.settings.inactivityThreshold with
        | .finite t => max 250 t
        | _ => 60000) ∧
    250 ≤ effectiveDelay st.settings := by
  refine ⟨?_, ?_, ?_⟩
  · rw [handleTyping_timers]
    simp
  · unfold effectiveDelay
    cases h : st.settings.inactivityThreshold <;>
      simp [numberIsFinite, JsValue.toRat, DEFAULT_SETTINGS, defaultInactivityThreshold]
  · unfold effectiveDelay
    cases h : st.settings.inactivityThreshold <;>
      simp [numberIsFinite, JsValue.toRat, DEFAULT_SETTINGS, defaultInactivityThreshold] <;>
      norm_num

theorem loadCustomFont_valid (st : State) (url family : String)
    (hu : st.settings.customFontUrl = some url) (hf : st.settings.customFontFamily = some family)
    (hu2 : url ≠ "") (hf2 : family ≠ "")
    (hs : jsStartsWith (jsTrim url) "https://" = true) :
    ∃ n, getElementById CUSTOM_FONT_STYLE_ID (loadCustomFont st).head = some n ∧
      n.textContent =
        fontFaceText (escapeCssString (jsTrim family)) (escapeCssString (jsTrim url)) := by
  have hc : (!(url != "") || !(family != "")) = false := by simp [hu2, hf2]
  unfold loadCustomFont
  simp only [hu, hf, jsTruthy, jsToString, hs, hc, Bool.false_eq_true, ↓reduceIte,
    Bool.not_true]
  rw [getElementById_updateById]
  · cases hg : getElementById CUSTOM_FONT_STYLE_ID st.head with
    | none =>
      simp only [getElementById_append_none _ _ _ hg]
      simp
    | some m =>
      simp only [hg]
      simp
  · intro n
    rfl

/-- Round trip of `escapeCssString` on the strings that hold no carriage
return, form feed or NUL: reading the escaped text back as the body of a
single-quoted CSS string gives the string with every line feed replaced by a
space and stops exactly at the closing quote. The same holds for the family
name in the `@font-face` text that `loadCustomFont` writes, and the name made
of a, quote, b, backslash, c comes back unchanged. -/
theorem escapeCssString_reads_back :
    (∀ (s : String) (rest : List Char),
      (∀ c ∈ s.data, c.toNat ≠ 0x0D ∧ c.toNat ≠ 0x0C ∧ c.toNat ≠ 0) →
      readCssStringBody ((escapeCssString s).data ++ '\'' :: rest) =
        some (collapseLineFeeds s.data, rest)) ∧
    (∀ (st : State) (url family : String),
      st.settings.customFontUrl = some url → st.settings.customFontFamily = some family →
      url ≠ "" → family ≠ "" → jsStartsWith (jsTrim url) "https://" = true →
      (∀ c ∈ (jsTrim family).data, c.toNat ≠ 0x0D ∧ c.toNat ≠ 0x0C ∧ c.toNat ≠ 0) →
      ∃ n, getElementById CUSTOM_FONT_STYLE_ID (loadCustomFont st).head = some n ∧
        readCssStringBody (n.textContent.data.drop fontFacePrefix.length) =
          some (collapseLineFeeds (jsTrim family).data,
            (fontFaceMiddle.data.drop 1 ++ (escapeCssString (jsTrim url)).data ++
              fontFaceSuffix.data))) ∧
    collapseLineFeeds (jsTrim "a'b\\c").data = "a'b\\c".data := by
  refine ⟨fun s rest hs => readCssStringBody_escape s.data rest hs, ?_, by decide⟩
  intro st url family hu hf hu2 hf2 hs hplain
  obtain ⟨n, hn, ht⟩ := loadCustomFont_valid st url family hu hf hu2 hf2 hs
  refine ⟨n, hn, ?_⟩
  rw [ht]
  have hpre : fontFacePrefix.length = fontFacePrefix.data.length := rfl
  have hmid : fontFaceMiddle.data = '\'' :: fontFaceMiddle.data.drop 1 := by decide
  simp only [fontFaceText, String.data_append, List.append_assoc, hpre, List.drop_left]
  rw [hmid]
  simp only [List.cons_append]
  rw [show (escapeCssString (jsTrim family)).data = escapeCssChars (jsTrim family).data from rfl]
  rw [readCssStringBody_escape _ _ hplain]
  simp

/-- C5 (code bug). `escapeCssString` leaves a carriage return as it is: for the
family name a, carriage return, b the escaped text is the name itself, and it
does not read back as the body of a single-quoted CSS string, since CSS takes
the carriage return for a line break that ends the string. The family name in
the `@font-face` text that `loadCustomFont` writes for this name does not read
back either. -/
theorem escapeCssString_carriage_return_unreadable :
    escapeCssString "a\rb" = "a\rb" ∧
    readCssStringBody ((escapeCssString "a\rb").data ++ ['\'']) = none ∧
    ∃ n, getElementById CUSTOM_FONT_STYLE_ID
        (loadCustomFont (init carriageReturnSettings 0 [])).head = some n ∧
      readCssStringBody (n.textContent.data.drop fontFacePrefix.length) = none := by
  refine ⟨by decide, by decide, ?_⟩
  obtain ⟨n, hn, ht⟩ := loadCustomFont_valid (init carriageReturnSettings 0 [])
    "https://fonts.example/font.ttf" "a\rb" rfl rfl (by decide) (by decide) (by decide)
  refine ⟨n, hn, ?_⟩
  rw [ht]
  decide

/-- C4 (amended). `loadCustomFont` changes nothing whenever `customFontUrl` is
missing or empty, or `customFontFamily` is missing or empty, or the trimmed URL
does not start with `https://`: no node is created and an existing one keeps
its text. -/
theorem loadCustomFont_noop (st : State)
    (h : jsTruthy st.settings.customFontUrl = false ∨
      jsTruthy st.settings.customFontFamily = false ∨
      jsStartsWith (jsTrim (jsToString st.settings.customFontUrl)) "https://" = false) :
    loadCustomFont st = st := by
  unfold loadCustomFont
  rcases h with h | h | h <;> simp [h]


/-! ## Lemmas on overlay elements -/

theorem length_modifyNth {α : Type} (f : α → α) (i : Nat) (l : List α) :
    (modifyNth f i l).length = l.length := by
  induction l generalizing i with
  | nil => cases i <;> rfl
  | cons x xs ih => cases i <;> simp [modifyNth, ih]

theorem getElem?_modifyNth {α : Type} (f : α → α) (i j : Nat) (l : List α) :
    (modifyNth f i l)[j]? = if i = j then (l[j]?).map f else l[j]? := by
  induction l generalizing i j with
  | nil => cases i <;> simp [modifyNth]
  | cons x xs ih =>
    cases i with
    | zero => cases j <;> simp [modifyNth]
    | succ i => cases j <;> simp [modifyNth, ih]

theorem onTimestampEl_frame (f : OverlayEl → OverlayEl) (st : State) :
    (onTimestampEl f st).settings = st.settings ∧
    (onTimestampEl f st).timeoutId = st.timeoutId ∧
    (onTimestampEl f st).timestampEl = st.timestampEl ∧
    (onTimestampEl f st).pendingEditor = st.pendingEditor ∧
    (onTimestampEl f st).pendingView = st.pendingView ∧
    (onTimestampEl f st).clock = st.clock ∧
    (onTimestampEl f st).timers = st.timers ∧
    (onTimestampEl f st).nextTimerId = st.nextTimerId ∧
    (onTimestampEl f st).head = st.head ∧
    (onTimestampEl f st).elems.length = st.elems.length := by
  unfold onTimestampEl
  cases h : st.timestampEl <;> simp [h, length_modifyNth]

theorem onTimestampEl_elems (f : OverlayEl → OverlayEl) (st : State) (i : Nat)
    (h : st.timestampEl = some i) (j : Nat) :
    (onTimestampEl f st).elems[j]? = if i = j then (st.elems[j]?).map f else st.elems[j]? := by
  unfold onTimestampEl
  simp [h, getElem?_modifyNth]

theorem showTimestamp_frame (host : Host) (editor view : Nat) (st : State) :
    (showTimestamp host editor view st).settings = st.settings ∧
    (showTimestamp host editor view st).timeoutId = st.timeoutId ∧
    (showTimestamp host editor view st).pendingEditor = st.pendingEditor ∧
    (showTimestamp host editor view st).pendingView = st.pendingView ∧
    (showTimestamp host editor view st).clock = st.clock ∧
    (showTimestamp host editor view st).timers = st.timers ∧
    (showTimestamp host editor view st).nextTimerId = st.nextTimerId ∧
    (showTimestamp host editor view st).head = st.head := by
  unfold showTimestamp
  by_cases hc : (host.view view).isConnected = true
  · cases he : (host.view view).cmEditor with
    | none => simp [hc, he]
    | some editorEl =>
      simp only [hc, he, Bool.not_true, Bool.false_eq_true, ↓reduceIte, updateColors, updateFonts]
      simp only [onTimestampEl_frame, and_self]
  · simp [hc]

theorem timerCallback_frame (host : Host) (st : State) :
    (timerCallback host st).settings = st.settings ∧
    (timerCallback host st).timeoutId = st.timeoutId ∧
    (timerCallback host st).pendingEditor = st.pendingEditor ∧
    (timerCallback host st).pendingView = st.pendingView ∧
    (timerCallback host st).clock = st.clock ∧
    (timerCallback host st).timers = st.timers ∧
    (timerCallback host st).nextTimerId = st.nextTimerId ∧
    (timerCallback host st).head = st.head := by
  unfold timerCallback
  split
  · exact showTimestamp_frame _ _ _ _
  · simp

theorem takeWhile_dropWhile_append {α : Type} (p : α → Bool) (l r : List α) (y : α)
    (hl : ∀ x ∈ l, p x = true) (hy : p y = false) :
    (l ++ y :: r).takeWhile p = l ∧ (l ++ y :: r).dropWhile p = y :: r := by
  induction l with
  | nil => simp [List.takeWhile, List.dropWhile, hy]
  | cons x xs ih =>
    have hx := hl x (List.mem_cons_self _ _)
    obtain ⟨i1, i2⟩ := ih (fun z hz => hl z (List.mem_cons_of_mem _ hz))
    simp [List.takeWhile, List.dropWhile, hx, i1, i2]

theorem quotedFamily_data (name : String) :
    (quotedFamily name).data =
      Char.ofNat 0x22 :: (name.data ++ Char.ofNat 0x22 :: ", monospace".data) := by
  simp only [quotedFamily, String.data_append, List.append_assoc]
  rfl

theorem isQuotedFamilyWithFallback_quotedFamily (name : String) :
    isQuotedFamilyWithFallback (quotedFamily name) = isPlainFamilyName name := by
  have hq : (fun x : Char => x.toNat != 0x22) (Char.ofNat 0x22) = false := by decide
  unfold isQuotedFamilyWithFallback isPlainFamilyName
  rw [quotedFamily_data]
  show (decide ((Char.ofNat 0x22).toNat = 0x22) &&
      (List.takeWhile (fun x : Char => x.toNat != 0x22)
        (name.data ++ Char.ofNat 0x22 :: ", monospace".data)).all isPlainCssChar &&
      List.dropWhile (fun x : Char => x.toNat != 0x22)
        (name.data ++ Char.ofNat 0x22 :: ", monospace".data) ==
          Char.ofNat 0x22 :: ", monospace".data) = name.data.all isPlainCssChar
  by_cases hp : name.data.all isPlainCssChar = true
  · have hl : ∀ x ∈ name.data, (fun x : Char => x.toNat != 0x22) x = true := by
      intro x hx
      have := List.all_eq_true.mp hp x hx
      simp only [isPlainCssChar, Bool.not_eq_true', Bool.or_eq_false_iff,
        decide_eq_false_iff_not] at this
      simpa using this.1.1.1
    obtain ⟨t1, t2⟩ := takeWhile_dropWhile_append _ name.data ", monospace".data
      (Char.ofNat 0x22) hl hq
    rw [t1, t2, hp]
    decide
  · have hp2 : name.data.all isPlainCssChar = false := by simpa using hp
    rw [hp2, Bool.eq_false_iff]
    intro hc
    simp only [Bool.and_eq_true, beq_iff_eq] at hc
    obtain ⟨⟨-, hall⟩, hdrop⟩ := hc
    have happ := List.takeWhile_append_dropWhile (fun x : Char => x.toNat != 0x22)
      (name.data ++ Char.ofNat 0x22 :: ", monospace".data)
    rw [hdrop] at happ
    have heq := List.append_cancel_right happ
    rw [heq] at hall
    exact hp hall

theorem setFontFamily_fontFamily (host : Host) (text : String) (el : OverlayEl) :
    (setFontFamily host text el).fontFamily =
      if isQuotedFamilyWithFallback text = true then some text
      else
        match host.fontFamilyValue text with
        | some value => some value
        | none => el.fontFamily := by
  unfold setFontFamily
  by_cases h : isQuotedFamilyWithFallback text = true
  · simp only [if_pos h]
  · simp only [if_neg h]
    cases host.fontFamilyValue text <;> rfl

/-- C8 (amended). On a visible overlay `updateFonts` leaves the font family as
it was when `fontSource` is none of `default`, `google`, `custom`. For
`default` the font family becomes the quoted Roboto Mono with the monospace
fallback. For `google` and `custom` the code assigns the configured name
between double quotes followed by `, monospace`, with no check that the name
is present or non-empty: when the name holds no double quote, backslash, line
feed, carriage return, form feed or NUL (an empty name and a missing one,
printed as undefined, included) the font family becomes that text; for any
other name it becomes what the host's CSS parser makes of the text and stays
as it was when the host rejects the text. -/
theorem updateFonts_font_family (host : Host) (st : State) (i : Nat) (el : OverlayEl)
    (hi : st.timestampEl = some i) (hel : st.elems[i]? = some el) :
    ∃ el2, (updateFonts host st).elems[i]? = some el2 ∧
      (st.settings.fontSource ≠ "default" → st.settings.fontSource ≠ "google" →
        st.settings.fontSource ≠ "custom" → el2.fontFamily = el.fontFamily) ∧
      (st.settings.fontSource = "default" →
        el2.fontFamily = some "\"Roboto Mono\", monospace") ∧
      (st.settings.fontSource = "google" →
        isPlainFamilyName (jsToString st.settings.googleFont) = true →
        el2.fontFamily =
          some ("\"" ++ jsToString st.settings.googleFont ++ "\", monospace")) ∧
      (st.settings.fontSource = "custom" →
        isPlainFamilyName (jsToString st.settings.customFontFamily) = true →
        el2.fontFamily =
          some ("\"" ++ jsToString st.settings.customFontFamily ++ "\", monospace")) ∧
      (∀ name : String,
        (st.settings.fontSource = "google" ∧ name = jsToString st.settings.googleFont) ∨
        (st.settings.fontSource = "custom" ∧ name = jsToString st.settings.customFontFamily) →
        isPlainFamilyName name = false →
        el2.fontFamily =
          match host.fontFamilyValue ("\"" ++ name ++ "\", monospace") with
          | some value => some value
          | none => el.fontFamily) := by
  have hgc : "google" ≠ "default" := by decide
  have hcd : "custom" ≠ "default" := by decide
  have hcg : "custom" ≠ "google" := by decide
  refine ⟨updateFontsEl host st.settings el, ?_, ?_, ?_, ?_, ?_, ?_⟩
  · simp [updateFonts, onTimestampEl_elems _ _ _ hi, hel]
  · intro h1 h2 h3
    simp only [updateFontsEl, if_neg h1, if_neg h2, if_neg h3]
  · intro h1
    simp only [updateFontsEl, if_pos h1]
    rw [setFontFamily_fontFamily, if_pos (by decide)]
  · intro h1 hp
    have h0 : st.settings.fontSource ≠ "default" := by rw [h1]; exact hgc
    simp only [updateFontsEl, if_neg h0, if_pos h1]
    rw [setFontFamily_fontFamily, isQuotedFamilyWithFallback_quotedFamily, if_pos hp]
    rfl
  · intro h1 hp
    have h0 : st.settings.fontSource ≠ "default" := by rw [h1]; exact hcd
    have h2 : st.settings.fontSource ≠ "google" := by rw [h1]; exact hcg
    simp only [updateFontsEl, if_neg h0, if_neg h2, if_pos h1]
    rw [setFontFamily_fontFamily, isQuotedFamilyWithFallback_quotedFamily, if_pos hp]
    rfl
  · intro name hsrc hp
    have hnp : ¬ isPlainFamilyName name = true := by rw [hp]; exact Bool.false_ne_true
    rcases hsrc with ⟨h1, hn⟩ | ⟨h1, hn⟩
    · have h0 : st.settings.fontSource ≠ "default" := by rw [h1]; exact hgc
      simp only [updateFontsEl, if_neg h0, if_pos h1]
      rw [setFontFamily_fontFamily, ← hn, isQuotedFamilyWithFallback_quotedFamily,
        if_neg hnp]
      rfl
    · have h0 : st.settings.fontSource ≠ "default" := by rw [h1]; exact hcd
      have h2 : st.settings.fontSource ≠ "google" := by rw [h1]; exact hcg
      simp only [updateFontsEl, if_neg h0, if_neg h2, if_pos h1]
      rw [setFontFamily_fontFamily, ← hn, isQuotedFamilyWithFallback_quotedFamily,
        if_neg hnp]
      rfl

/-- C10 (amended). When a pending timer fires while an (editor, view) pair is
recorded, the callback runs and `pendingEditor` and `pendingView` still hold
that pair afterwards, whether or not `showTimestamp` rendered the overlay; the
plugin state, timer table and document head apart from the overlay are as
before. -/
theorem fireTimer_keeps_pending (host : Host) (id : Nat) (st : State) (editor view : Nat)
    (hp : st.timers.any (fun t => t.id == id) = true)
    (he : st.pendingEditor = some editor) (hv : st.pendingView = some view) :
    ∃ st2, fireTimer host id st = some st2 ∧
      st2 = showTimestamp host editor view (clearTimeout id st) ∧
      st2.pendingEditor = some editor ∧ st2.pendingView = some view := by
  refine ⟨showTimestamp host editor view (clearTimeout id st), ?_, rfl, ?_, ?_⟩
  · simp [fireTimer, hp, timerCallback, clearTimeout, he, hv]
  · rw [(showTimestamp_frame host editor view _).2.2.1]
    exact he
  · rw [(showTimestamp_frame host editor view _).2.2.2.1]
    exact hv


/-! ## Lemmas on theming -/

theorem classListRemove_filter (tokens classList : List String) :
    (classListRemove tokens classList).filter (fun c => tokens.contains c) = [] := by
  rw [List.filter_eq_nil_iff]
  intro c hc
  unfold classListRemove at hc
  rw [List.mem_filter] at hc
  simpa using hc.2

theorem classListAdd_after_remove (tokens classList : List String) (c : String)
    (hc : tokens.contains c = true) :
    (classListAdd c (classListRemove tokens classList)).filter (fun x => tokens.contains x) =
      [c] := by
  have hnot : (classListRemove tokens classList).contains c = false := by
    rw [Bool.eq_false_iff]
    intro hmem
    have hm : c ∈ classListRemove tokens classList := by simpa using hmem
    unfold classListRemove at hm
    rw [List.mem_filter] at hm
    rw [hc] at hm
    exact Bool.noConfusion hm.2
  unfold classListAdd
  simp only [hnot, Bool.false_eq_true, ↓reduceIte, List.filter_append, classListRemove_filter,
    List.nil_append]
  simp only [List.filter, hc]

theorem removeProperty_of_absent (name : String) (ps : List (String × String))
    (h : ∀ p ∈ ps, p.1 ≠ name) : removeProperty name ps = ps := by
  unfold removeProperty
  rw [List.filter_eq_self]
  intro p hp
  simpa using h p hp

theorem setProperty_of_absent (names : List String) (name value : String)
    (ps : List (String × String)) (h : ∀ p ∈ ps, p.1 ≠ name)
    (hn : names.contains name = true) :
    setProperty name value ps = ps ++ (if value = "" then [] else [(name, value)]) ∧
    (setProperty name value ps).filter (fun p => names.contains p.1) =
      ps.filter (fun p => names.contains p.1) ++
        (if value = "" then [] else [(name, value)]) := by
  have hany : ps.any (fun p => p.1 == name) = false := by
    rw [Bool.eq_false_iff]
    intro ha
    rw [List.any_eq_true] at ha
    obtain ⟨p, hp, he⟩ := ha
    exact h p hp (by simpa using he)
  have heq : setProperty name value ps = ps ++ (if value = "" then [] else [(name, value)]) := by
    unfold setProperty
    by_cases hv : value = ""
    · simp only [hv, ↓reduceIte, List.append_nil]
      exact removeProperty_of_absent name ps h
    · simp only [hv, ↓reduceIte, hany, Bool.false_eq_true]
  refine ⟨heq, ?_⟩
  rw [heq, List.filter_append]
  by_cases hv : value = ""
  · simp only [hv, ↓reduceIte, List.filter_nil]
  · simp only [hv, ↓reduceIte, List.filter, hn]

theorem colorProperties_removed (ps : List (String × String)) :
    ∀ p ∈ removeProperty "--gradient-end" (removeProperty "--gradient-start"
        (removeProperty "--custom-gradient" (removeProperty "--custom-color" ps))),
      colorProperties.contains p.1 = false := by
  intro p hp
  simp only [removeProperty, List.mem_filter, bne_iff_ne, ne_eq] at hp
  obtain ⟨⟨⟨⟨-, h1⟩, h2⟩, h3⟩, h4⟩ := hp
  simp [colorProperties, h1, h2, h3, h4]

theorem colorProperties_removed_filter (ps : List (String × String)) :
    (removeProperty "--gradient-end" (removeProperty "--gradient-start"
        (removeProperty "--custom-gradient" (removeProperty "--custom-color" ps)))).filter
      (fun p => colorProperties.contains p.1) = [] := by
  rw [List.filter_eq_nil_iff]
  intro p hp
  rw [colorProperties_removed ps p hp]
  exact Bool.false_ne_true

theorem colorProperties_removed_ne (ps : List (String × String)) (name : String)
    (hn : colorProperties.contains name = true) :
    ∀ p ∈ removeProperty "--gradient-end" (removeProperty "--gradient-start"
        (removeProperty "--custom-gradient" (removeProperty "--custom-color" ps))),
      p.1 ≠ name := by
  intro p hp e
  have := colorProperties_removed ps p hp
  rw [e, hn] at this
  exact Bool.noConfusion this

theorem updateColorsEl_classes (settings : Settings) (el : OverlayEl) :
    modeClassesOf (updateColorsEl settings el) = [specModeClass settings] := by
  unfold modeClassesOf updateColorsEl specModeClass colorModeClasses
  by_cases h1 : settings.colorMode = "rgb-animation"
  · simp only [if_pos h1]
    exact classListAdd_after_remove _ _ _ (by decide)
  · by_cases h2 : settings.colorMode = "single"
    · simp only [if_neg h1, if_pos h2]
      exact classListAdd_after_remove _ _ _ (by decide)
    · by_cases h3 : settings.gradientAnimate = true
      · simp only [if_neg h1, if_neg h2, if_pos h3]
        exact classListAdd_after_remove _ _ _ (by decide)
      · simp only [if_neg h1, if_neg h2, if_neg h3]
        exact classListAdd_after_remove _ _ _ (by decide)

theorem updateColorsEl_properties (settings : Settings) (el : OverlayEl) :
    colorPropertiesOf (updateColorsEl settings el) =
      (if settings.colorMode = "rgb-animation" then []
       else if settings.colorMode = "single" then
         (if settings.singleColor = "" then [] else [("--custom-color", settings.singleColor)])
       else if settings.gradientAnimate = true then
         (if settings.gradientStart = "" then []
            else [("--gradient-start", settings.gradientStart)]) ++
         (if settings.gradientEnd = "" then []
            else [("--gradient-end", settings.gradientEnd)])
       else
         (if ("linear-gradient(to right, " ++ settings.gradientStart ++ ", " ++
            settings.gradientEnd ++ ")") = "" then []
          else [("--custom-gradient", "linear-gradient(to right, " ++
            settings.gradientStart ++ ", " ++ settings.gradientEnd ++ ")")])) := by
  unfold colorPropertiesOf updateColorsEl
  by_cases h1 : settings.colorMode = "rgb-animation"
  · simp only [if_pos h1]
    exact colorProperties_removed_filter _
  · by_cases h2 : settings.colorMode = "single"
    · simp only [if_neg h1, if_pos h2]
      rw [(setProperty_of_absent colorProperties "--custom-color" settings.singleColor _
        (colorProperties_removed_ne el.properties _ (by decide)) (by decide)).2,
        colorProperties_removed_filter, List.nil_append]
    · by_cases h3 : settings.gradientAnimate = true
      · simp only [if_neg h1, if_neg h2, if_pos h3]
        have hs := setProperty_of_absent colorProperties "--gradient-start"
          settings.gradientStart _
          (colorProperties_removed_ne el.properties _ (by decide)) (by decide)
        have he : ∀ p ∈ setProperty "--gradient-start" settings.gradientStart
            (removeProperty "--gradient-end" (removeProperty "--gradient-start"
              (removeProperty "--custom-gradient"
                (removeProperty "--custom-color" el.properties)))),
            p.1 ≠ "--gradient-end" := by
          intro p hp
          rw [hs.1, List.mem_append] at hp
          rcases hp with hp | hp
          · exact colorProperties_removed_ne el.properties _ (by decide) p hp
          · by_cases hv : settings.gradientStart = ""
            · simp [hv] at hp
            · simp only [hv, ↓reduceIte, List.mem_singleton] at hp
              rw [hp]
              show "--gradient-start" ≠ "--gradient-end"
              decide
        rw [(setProperty_of_absent colorProperties "--gradient-end" settings.gradientEnd _
          he (by decide)).2, hs.2, colorProperties_removed_filter, List.nil_append]
      · simp only [if_neg h1, if_neg h2, if_neg h3]
        rw [(setProperty_of_absent colorProperties "--custom-gradient" _ _
          (colorProperties_removed_ne el.properties _ (by decide)) (by decide)).2,
          colorProperties_removed_filter, List.nil_append]

theorem updateColorsEl_only_mode_properties (settings : Settings) (el : OverlayEl) :
    ∀ p ∈ colorPropertiesOf (updateColorsEl settings el),
      p.1 ∈ specModeProperties settings := by
  intro p hp
  rw [updateColorsEl_properties] at hp
  unfold specModeProperties
  by_cases h1 : settings.colorMode = "rgb-animation"
  · simp [if_pos h1] at hp
  · by_cases h2 : settings.colorMode = "single"
    · simp only [if_neg h1, if_pos h2] at hp ⊢
      by_cases hv : settings.singleColor = ""
      · simp [hv] at hp
      · simp only [hv, ↓reduceIte, List.mem_singleton] at hp
        simp [hp]
    · by_cases h3 : settings.gradientAnimate = true
      · simp only [if_neg h1, if_neg h2, if_pos h3, List.mem_append] at hp ⊢
        rcases hp with hp | hp
        · by_cases hv : settings.gradientStart = ""
          · simp [hv] at hp
          · simp only [hv, ↓reduceIte, List.mem_singleton] at hp
            simp [hp]
        · by_cases hv : settings.gradientEnd = ""
          · simp [hv] at hp
          · simp only [hv, ↓reduceIte, List.mem_singleton] at hp
            simp [hp]
      · simp only [if_neg h1, if_neg h2, if_neg h3] at hp ⊢
        split at hp
        · simp at hp
        · simp only [List.mem_singleton] at hp
          simp [hp]

/-- C6. On a visible overlay `updateColors` leaves exactly one of the four
colour-mode classes, the one the configuration selects (`rgb-animation` for
that colour mode, `single-color` for `single`, otherwise `animated-gradient`
or `static-gradient` by `gradientAnimate`), and among the four colour custom
properties only those of that mode. Two overlays with any prior classes and
properties end with the same mode classes and colour properties when the
settings are the same. -/
theorem updateColors_resets_mode (st1 st2 : State) (i1 i2 : Nat) (el1 el2 : OverlayEl)
    (h1 : st1.timestampEl = some i1) (g1 : st1.elems[i1]? = some el1)
    (h2 : st2.timestampEl = some i2) (g2 : st2.elems[i2]? = some el2)
    (hs : st1.settings = st2.settings) :
    ∃ r1 r2, (updateColors st1).elems[i1]? = some r1 ∧
      (updateColors st2).elems[i2]? = some r2 ∧
      modeClassesOf r1 = [specModeClass st1.settings] ∧
      (∀ p ∈ colorPropertiesOf r1, p.1 ∈ specModeProperties st1.settings) ∧
      modeClassesOf r1 = modeClassesOf r2 ∧
      colorPropertiesOf r1 = colorPropertiesOf r2 := by
  refine ⟨updateColorsEl st1.settings el1, updateColorsEl st2.settings el2, ?_, ?_,
    updateColorsEl_classes _ _, updateColorsEl_only_mode_properties _ _, ?_, ?_⟩
  · simp [updateColors, onTimestampEl_elems _ _ _ h1, g1]
  · simp [updateColors, onTimestampEl_elems _ _ _ h2, g2]
  · rw [updateColorsEl_classes, updateColorsEl_classes, hs]
  · rw [updateColorsEl_properties, updateColorsEl_properties, hs]


/-! ## Lemmas on the font nodes -/

theorem countId_append (id : String) (a b : List HeadNode) :
    countId id (a ++ b) = countId id a + countId id b := by
  simp [countId, List.filter_append]

theorem countId_updateById (id id2 : String) (f : HeadNode → HeadNode) (head : List HeadNode)
    (hf : ∀ n, (f n).id = n.id) :
    countId id2 (updateById id f head) = countId id2 head := by
  induction head with
  | nil => rfl
  | cons n ns ih =>
    unfold countId at *
    by_cases h : n.id = id
    · rw [updateById, if_pos h]
      simp only [List.filter_cons, hf]
      split <;> simp
    · rw [updateById, if_neg h]
      simp only [List.filter_cons]
      split <;> simp [ih]

theorem length_updateById (id : String) (f : HeadNode → HeadNode) (head : List HeadNode) :
    (updateById id f head).length = head.length := by
  induction head with
  | nil => rfl
  | cons n ns ih =>
    by_cases h : n.id = id
    · rw [updateById, if_pos h]
      rfl
    · rw [updateById, if_neg h, List.length_cons, List.length_cons, ih]

theorem getElementById_eq_none_iff (id : String) (head : List HeadNode) :
    getElementById id head = none ↔ countId id head = 0 := by
  unfold getElementById countId
  rw [List.find?_eq_none, List.length_eq_zero, List.filter_eq_nil_iff]

theorem countId_removeById_le (id id2 : String) (head : List HeadNode) :
    countId id2 (removeById id head) ≤ countId id2 head := by
  induction head with
  | nil => exact Nat.le_refl _
  | cons n ns ih =>
    unfold countId at *
    by_cases h : n.id = id
    · rw [removeById, if_pos h]
      simp only [List.filter_cons]
      split <;> simp
    · rw [removeById, if_neg h]
      simp only [List.filter_cons]
      split <;> simp [ih]

theorem countId_removeById_self (id : String) (head : List HeadNode) :
    countId id (removeById id head) = countId id head - 1 := by
  induction head with
  | nil => rfl
  | cons n ns ih =>
    unfold countId at *
    by_cases h : n.id = id
    · rw [removeById, if_pos h]
      simp [List.filter_cons, h]
    · rw [removeById, if_neg h]
      simp only [List.filter_cons, h, decide_False, Bool.false_eq_true, ↓reduceIte]
      exact ih

theorem removeById_of_absent (id : String) (head : List HeadNode)
    (h : getElementById id head = none) : removeById id head = head := by
  induction head with
  | nil => rfl
  | cons n ns ih =>
    unfold getElementById at *
    by_cases hn : n.id = id
    · simp [List.find?_cons, hn] at h
    · rw [removeById, if_neg hn, ih]
      simpa [List.find?_cons, hn] using h

theorem ids_distinct : GOOGLE_FONT_LINK_ID ≠ CUSTOM_FONT_STYLE_ID := by decide

theorem loadGoogleFont_frame (fontName : String) (st : State) :
    (loadGoogleFont fontName st).settings = st.settings ∧
    (loadGoogleFont fontName st).timeoutId = st.timeoutId ∧
    (loadGoogleFont fontName st).timestampEl = st.timestampEl ∧
    (loadGoogleFont fontName st).timers = st.timers ∧
    (loadGoogleFont fontName st).elems = st.elems := by
  unfold loadGoogleFont
  by_cases h : jsTrim fontName = ""
  · simp [h]
  · simp [h]

theorem loadCustomFont_frame (st : State) :
    (loadCustomFont st).settings = st.settings ∧
    (loadCustomFont st).timeoutId = st.timeoutId ∧
    (loadCustomFont st).timestampEl = st.timestampEl ∧
    (loadCustomFont st).timers = st.timers ∧
    (loadCustomFont st).elems = st.elems := by
  unfold loadCustomFont
  by_cases c1 : (!jsTruthy st.settings.customFontUrl ||
      !jsTruthy st.settings.customFontFamily) = true
  · simp only [if_pos c1, and_self]
  · by_cases c2 : (!jsStartsWith (jsTrim (jsToString st.settings.customFontUrl))
        "https://") = true
    · simp only [if_neg c1, if_pos c2, and_self]
    · simp only [if_neg c1, if_neg c2, and_self]

theorem ensure_update_counts (id0 id : String) (node : HeadNode) (f : HeadNode → HeadNode)
    (head : List HeadNode) (hnode : node.id = id0) (hf : ∀ n, (f n).id = n.id)
    (h : countId id head ≤ 1) :
    countId id (updateById id0 f
      (match getElementById id0 head with
        | some _ => head
        | none => head ++ [node])) ≤ 1 := by
  rw [countId_updateById _ _ _ _ hf]
  cases hg : getElementById id0 head with
  | some m => exact h
  | none =>
    simp only [countId_append]
    by_cases hid : id0 = id
    · subst hid
      rw [(getElementById_eq_none_iff _ _).mp hg]
      simp [countId, hnode]
    · have : countId id [node] = 0 := by
        simp [countId, hnode, hid]
      rw [this]
      exact h

theorem loadGoogleFont_counts (fontName : String) (st : State) (id : String)
    (h : countId id st.head ≤ 1) : countId id (loadGoogleFont fontName st).head ≤ 1 := by
  unfold loadGoogleFont
  by_cases hn : jsTrim fontName = ""
  · simpa [hn] using h
  · simp only [hn, ↓reduceIte]
    exact ensure_update_counts _ _ _ _ _ rfl (fun _ => rfl) h

theorem loadCustomFont_counts (st : State) (id : String)
    (h : countId id st.head ≤ 1) : countId id (loadCustomFont st).head ≤ 1 := by
  unfold loadCustomFont
  by_cases c1 : (!jsTruthy st.settings.customFontUrl ||
      !jsTruthy st.settings.customFontFamily) = true
  · simpa only [if_pos c1] using h
  · by_cases c2 : (!jsStartsWith (jsTrim (jsToString st.settings.customFontUrl))
        "https://") = true
    · simpa only [if_neg c1, if_pos c2] using h
    · simp only [if_neg c1, if_neg c2]
      exact ensure_update_counts _ _ _ _ _ rfl (fun _ => rfl) h

theorem removeInjectedFontNodes_counts (st : State) (id : String)
    (h : countId id st.head ≤ 1) : countId id (removeInjectedFontNodes st).head ≤ 1 := by
  unfold removeInjectedFontNodes
  exact Nat.le_trans (countId_removeById_le _ _ _)
    (Nat.le_trans (countId_removeById_le _ _ _) h)

theorem fontOps_counts (ops : List FontOp) (st : State) (id : String)
    (h : countId id st.head ≤ 1) : countId id (ops.foldl FontOp.run st).head ≤ 1 := by
  induction ops generalizing st with
  | nil => exact h
  | cons op ops ih =>
    rw [List.foldl_cons]
    apply ih
    cases op with
    | loadGoogleFont fontName => exact loadGoogleFont_counts fontName st id h
    | loadCustomFont settings => exact loadCustomFont_counts _ id h
    | removeInjectedFontNodes => exact removeInjectedFontNodes_counts st id h

/-- C9. Starting from a document with neither font node, after any sequence of
`loadGoogleFont`, `loadCustomFont` (under any settings) and
`removeInjectedFontNodes` calls the document holds at most one node with the
Google link id and at most one with the custom style id. A load that finds its
node adds none: the head keeps its length and its ids, and the node found is
the old one with the new `href` (or the new text). `loadGoogleFont` with a
name that is empty after trimming leaves the state as it is. -/
theorem font_nodes_are_singletons (st : State) (ops : List FontOp)
    (hG : getElementById GOOGLE_FONT_LINK_ID st.head = none)
    (hC : getElementById CUSTOM_FONT_STYLE_ID st.head = none) :
    (countId GOOGLE_FONT_LINK_ID (ops.foldl FontOp.run st).head ≤ 1 ∧
      countId CUSTOM_FONT_STYLE_ID (ops.foldl FontOp.run st).head ≤ 1) ∧
    (∀ (s : State) (fontName : String) (n : HeadNode),
      getElementById GOOGLE_FONT_LINK_ID s.head = some n → jsTrim fontName ≠ "" →
      (loadGoogleFont fontName s).head.length = s.head.length ∧
      (loadGoogleFont fontName s).head.map (fun m => m.id) = s.head.map (fun m => m.id) ∧
      getElementById GOOGLE_FONT_LINK_ID (loadGoogleFont fontName s).head =
        some { n with href := "https://fonts.googleapis.com/css2?family=" ++
          encodeURIComponent (jsTrim fontName) ++ ":wght@400;700&display=swap" }) ∧
    (∀ (s : State) (url family : String) (n : HeadNode),
      getElementById CUSTOM_FONT_STYLE_ID s.head = some n →
      s.settings.customFontUrl = some url → s.settings.customFontFamily = some family →
      url ≠ "" → family ≠ "" → jsStartsWith (jsTrim url) "https://" = true →
      (loadCustomFont s).head.length = s.head.length ∧
      (loadCustomFont s).head.map (fun m => m.id) = s.head.map (fun m => m.id) ∧
      getElementById CUSTOM_FONT_STYLE_ID (loadCustomFont s).head =
        some { n with textContent :=
          fontFaceText (escapeCssString (jsTrim family)) (escapeCssString (jsTrim url)) }) ∧
    (∀ (s : State) (fontName : String), jsTrim fontName = "" →
      loadGoogleFont fontName s = s) := by
  refine ⟨⟨?_, ?_⟩, ?_, ?_, ?_⟩
  · apply fontOps_counts
    rw [(getElementById_eq_none_iff _ _).mp hG]
    exact Nat.zero_le 1
  · apply fontOps_counts
    rw [(getElementById_eq_none_iff _ _).mp hC]
    exact Nat.zero_le 1
  · intro s fontName n hn hne
    unfold loadGoogleFont
    simp only [hne, ↓reduceIte, hn]
    refine ⟨length_updateById _ _ _, ?_, ?_⟩
    · exact map_id_updateById _ _ _ (fun _ => rfl)
    · rw [getElementById_updateById, hn]
      · rfl
      · intro m
        rfl
  · intro s url family n hn hu hf hu2 hf2 hs
    have hc : (!(url != "") || !(family != "")) = false := by simp [hu2, hf2]
    unfold loadCustomFont
    simp only [hu, hf, jsTruthy, jsToString, hs, hc, Bool.false_eq_true, ↓reduceIte,
      Bool.not_true, hn]
    refine ⟨length_updateById _ _ _, ?_, ?_⟩
    · exact map_id_updateById _ _ _ (fun _ => rfl)
    · rw [getElementById_updateById, hn]
      · rfl
      · intro m
        rfl
  · intro s fontName he
    unfold loadGoogleFont
    simp [he]


/-! ## Lemmas on teardown and the invariant -/

theorem attachedOverlays_eq_nil (st : State)
    (h : ∀ (i : Nat) (el : OverlayEl), st.elems[i]? = some el → el.parent = none) : attachedOverlays st = [] := by
  unfold attachedOverlays
  rw [List.filter_eq_nil_iff]
  intro el hel
  obtain ⟨i, hi⟩ := List.mem_iff_getElem?.mp hel
  rw [h i el hi]
  exact Bool.false_ne_true

theorem filter_length_le_one {α : Type} (p : α → Bool) (l : List α) (j : Nat)
    (h : ∀ (i : Nat) (a : α), l[i]? = some a → p a = true → i = j) : (l.filter p).length ≤ 1 := by
  induction l generalizing j with
  | nil => exact Nat.zero_le 1
  | cons x xs ih =>
    by_cases hx : p x = true
    · have h0 : 0 = j := h 0 x (by simp) hx
      have hnil : xs.filter p = [] := by
        rw [List.filter_eq_nil_iff]
        intro a ha hpa
        obtain ⟨i, hi⟩ := List.mem_iff_getElem?.mp ha
        have := h (i + 1) a (by simpa using hi) hpa
        omega
      simp [List.filter_cons, hx, hnil]
    · simp only [List.filter_cons, hx, Bool.false_eq_true, ↓reduceIte]
      apply ih (j - 1)
      intro i a hi hpa
      have := h (i + 1) a (by simpa using hi) hpa
      omega

theorem attachedOverlays_le_one (st : State)
    (h : ∀ (i : Nat) (el : OverlayEl), st.elems[i]? = some el → el.parent.isSome = true → st.timestampEl = some i) :
    (attachedOverlays st).length ≤ 1 := by
  unfold attachedOverlays
  cases ht : st.timestampEl with
  | none =>
    apply filter_length_le_one _ _ 0
    intro i el hi hp
    have := h i el hi hp
    rw [ht] at this
    exact Option.noConfusion this
  | some j =>
    apply filter_length_le_one _ _ j
    intro i el hi hp
    have := h i el hi hp
    rw [ht] at this
    exact (Option.some.inj this).symm

theorem clearInactivityTimer_timers (st : State)
    (h : ∀ t ∈ st.timers, st.timeoutId = some t.id) : (clearInactivityTimer st).timers = [] := by
  unfold clearInactivityTimer clearTimeout
  cases ht : st.timeoutId with
  | none =>
    simp only []
    cases hl : st.timers with
    | nil => rfl
    | cons t ts =>
      have := h t (by rw [hl]; exact List.mem_cons_self _ _)
      rw [ht] at this
      exact Option.noConfusion this
  | some id =>
    simp only []
    rw [List.filter_eq_nil_iff]
    intro t hmem
    have := h t hmem
    rw [ht] at this
    simp [Option.some.inj this]

theorem removeTimestamp_elems (st : State)
    (h : ∀ (i : Nat) (el : OverlayEl), st.elems[i]? = some el → el.parent.isSome = true → st.timestampEl = some i) :
    ∀ (i : Nat) (el : OverlayEl), (removeTimestamp st).elems[i]? = some el → el.parent = none := by
  intro i el hi
  unfold removeTimestamp at hi
  cases ht : st.timestampEl with
  | none =>
    rw [ht] at hi
    simp only [] at hi
    cases hp : el.parent with
    | none => rfl
    | some e =>
      have := h i el hi (by rw [hp]; rfl)
      rw [ht] at this
      exact Option.noConfusion this
  | some j =>
    rw [ht] at hi
    simp only [] at hi
    rw [onTimestampEl_elems _ _ _ ht] at hi
    by_cases hij : j = i
    · rw [if_pos hij] at hi
      cases hs : st.elems[i]? with
      | none => rw [hs] at hi; exact Option.noConfusion hi
      | some e0 =>
        rw [hs] at hi
        simp only [Option.map_some'] at hi
        rw [← Option.some.inj hi]
    · rw [if_neg hij] at hi
      cases hp : el.parent with
      | none => rfl
      | some e =>
        have := h i el hi (by rw [hp]; rfl)
        rw [ht] at this
        exact absurd (Option.some.inj this) hij

theorem removeTimestamp_elems_length (st : State) :
    (removeTimestamp st).elems.length = st.elems.length := by
  unfold removeTimestamp
  cases ht : st.timestampEl with
  | none => rfl
  | some j =>
    simp only []
    exact (onTimestampEl_frame _ _).2.2.2.2.2.2.2.2.2

theorem onunload_of_clean (st : State) (h1 : st.timeoutId = none) (h2 : st.timestampEl = none)
    (h3 : st.pendingEditor = none) (h4 : st.pendingView = none)
    (h5 : getElementById GOOGLE_FONT_LINK_ID st.head = none)
    (h6 : getElementById CUSTOM_FONT_STYLE_ID st.head = none) : onunload st = st := by
  cases st with
  | mk settings timeoutId timestampEl pendingEditor pendingView clock timers nextTimerId
      elems head =>
    simp only at h1 h2 h3 h4 h5 h6
    subst h1 h2 h3 h4
    simp only [onunload, clearInactivityTimer, removeTimestamp, removeInjectedFontNodes,
      removeById_of_absent _ _ h5, removeById_of_absent _ _ h6]

theorem onunload_fields (st : State) :
    (onunload st).timers = (clearInactivityTimer st).timers ∧
    (onunload st).timeoutId = none ∧
    (onunload st).timestampEl = none ∧
    (onunload st).pendingEditor = none ∧
    (onunload st).pendingView = none ∧
    (onunload st).settings = st.settings ∧
    (onunload st).head =
      removeById CUSTOM_FONT_STYLE_ID (removeById GOOGLE_FONT_LINK_ID st.head) ∧
    (onunload st).elems = (removeTimestamp st).elems := by
  unfold onunload removeInjectedFontNodes removeTimestamp clearInactivityTimer clearTimeout
    onTimestampEl
  cases h1 : st.timeoutId <;> cases h2 : st.timestampEl <;> simp [h1, h2]


/-- C2. From every state in which the pending timers are the one `timeoutId`
names, the appended overlay elements are the one `timestampEl` refers to, and
each font id occurs at most once in the document, `onunload` leaves no timer
pending, `timeoutId` and `timestampEl` null, no overlay element appended,
`pendingEditor` and `pendingView` null, and neither font node in the document;
a second `onunload` changes nothing. -/
theorem onunload_postcondition (st : State)
    (ht : ∀ t ∈ st.timers, st.timeoutId = some t.id)
    (ho : ∀ (i : Nat) (el : OverlayEl), st.elems[i]? = some el → el.parent.isSome = true →
      st.timestampEl = some i)
    (hG : countId GOOGLE_FONT_LINK_ID st.head ≤ 1)
    (hC : countId CUSTOM_FONT_STYLE_ID st.head ≤ 1) :
    (onunload st).timers = [] ∧
    (onunload st).timeoutId = none ∧
    (onunload st).timestampEl = none ∧
    attachedOverlays (onunload st) = [] ∧
    (onunload st).pendingEditor = none ∧
    (onunload st).pendingView = none ∧
    getElementById GOOGLE_FONT_LINK_ID (onunload st).head = none ∧
    getElementById CUSTOM_FONT_STYLE_ID (onunload st).head = none ∧
    onunload (onunload st) = onunload st := by
  obtain ⟨f1, f2, f3, f4, f5, -, f7, f8⟩ := onunload_fields st
  have hg : getElementById GOOGLE_FONT_LINK_ID (onunload st).head = none := by
    rw [f7, getElementById_eq_none_iff]
    have h1 := countId_removeById_le CUSTOM_FONT_STYLE_ID GOOGLE_FONT_LINK_ID
      (removeById GOOGLE_FONT_LINK_ID st.head)
    have h2 := countId_removeById_self GOOGLE_FONT_LINK_ID st.head
    omega
  have hc : getElementById CUSTOM_FONT_STYLE_ID (onunload st).head = none := by
    rw [f7, getElementById_eq_none_iff]
    have h1 := countId_removeById_self CUSTOM_FONT_STYLE_ID
      (removeById GOOGLE_FONT_LINK_ID st.head)
    have h2 := countId_removeById_le GOOGLE_FONT_LINK_ID CUSTOM_FONT_STYLE_ID st.head
    omega
  refine ⟨?_, f2, f3, ?_, f4, f5, hg, hc, onunload_of_clean _ f2 f3 f4 f5 hg hc⟩
  · rw [f1]
    exact clearInactivityTimer_timers st ht
  · apply attachedOverlays_eq_nil
    rw [f8]
    exact removeTimestamp_elems st ho

theorem inv_of_fields (st st2 : State) (h : Inv st) (h1 : st2.timers = st.timers)
    (h2 : st2.timeoutId = st.timeoutId) (h3 : st2.timestampEl = st.timestampEl)
    (h4 : st2.elems = st.elems) : Inv st2 := by
  constructor
  · rw [h1, h2]; exact h.timers_tracked
  · rw [h1]; exact h.timers_le_one
  · rw [h3, h4]; exact h.overlays_tracked
  · rw [h1, h3]; exact h.pending_no_overlay

theorem inv_init (settings : Settings) (clock : ℚ) (head : List HeadNode) :
    Inv (init settings clock head) := by
  constructor
  · intro t ht
    simp [init] at ht
  · simp [init]
  · intro i el hi
    simp [init] at hi
  · intro h
    rfl

theorem inv_onTimestampEl (f : OverlayEl → OverlayEl) (st : State) (h : Inv st) :
    Inv (onTimestampEl f st) := by
  obtain ⟨-, f2, f3, -, -, -, f7, -, -, -⟩ := onTimestampEl_frame f st
  constructor
  · rw [f7, f2]; exact h.timers_tracked
  · rw [f7]; exact h.timers_le_one
  · intro i el hi hp
    rw [f3]
    cases ht : st.timestampEl with
    | none =>
      have : onTimestampEl f st = st := by simp [onTimestampEl, ht]
      rw [this] at hi
      rw [← ht]
      exact h.overlays_tracked i el hi hp
    | some j =>
      rw [onTimestampEl_elems f st j ht] at hi
      by_cases hji : j = i
      · rw [hji]
      · rw [if_neg hji] at hi
        rw [← ht]
        exact h.overlays_tracked i el hi hp
  · rw [f7, f3]; exact h.pending_no_overlay

theorem inv_no_overlay (st : State) (h : Inv st) (ht : st.timestampEl = none) :
    ∀ (i : Nat) (el : OverlayEl), st.elems[i]? = some el → el.parent = none := by
  intro i el hi
  cases hp : el.parent with
  | none => rfl
  | some e =>
    have := h.overlays_tracked i el hi (by rw [hp]; rfl)
    rw [ht] at this
    exact Option.noConfusion this

theorem modifyNth_length_append {α : Type} (f : α → α) (l : List α) (x : α) :
    modifyNth f l.length (l ++ [x]) = l ++ [f x] := by
  induction l with
  | nil => rfl
  | cons y ys ih => simp [modifyNth, ih]

theorem showTimestamp_skip (host : Host) (editor view : Nat) (st : State)
    (h : (host.view view).isConnected = false ∨ (host.view view).cmEditor = none) :
    showTimestamp host editor view st = st := by
  unfold showTimestamp
  rcases h with h | h
  · simp [h]
  · by_cases hc : (host.view view).isConnected = true
    · simp [hc, h]
    · simp [hc]

theorem showTimestamp_render (host : Host) (editor view : Nat) (st : State) (editorEl : Nat)
    (hc : (host.view view).isConnected = true)
    (he : (host.view view).cmEditor = some editorEl) :
    ∃ el, el.parent = some editorEl ∧
      (showTimestamp host editor view st).elems = st.elems ++ [el] ∧
      (showTimestamp host editor view st).timestampEl = some st.elems.length := by
  unfold showTimestamp
  simp only [hc, he, Bool.not_true, Bool.false_eq_true, ↓reduceIte, updateColors, updateFonts,
    onTimestampEl, modifyNth_length_append]
  exact ⟨_, rfl, rfl, trivial⟩

theorem inv_showTimestamp (host : Host) (editor view : Nat) (st : State) (h : Inv st)
    (ht : st.timers = []) (hn : st.timestampEl = none) :
    Inv (showTimestamp host editor view st) := by
  by_cases hc : (host.view view).isConnected = true
  · cases he : (host.view view).cmEditor with
    | none => rw [showTimestamp_skip _ _ _ _ (Or.inr he)]; exact h
    | some editorEl =>
      obtain ⟨el, -, hel, hts⟩ := showTimestamp_render host editor view st editorEl hc he
      obtain ⟨-, f2, -, -, -, f6, -, -⟩ := showTimestamp_frame host editor view st
      constructor
      · rw [f6, ht]
        intro t hmem
        exact absurd hmem (List.not_mem_nil t)
      · rw [f6, ht]
        exact Nat.zero_le 1
      · intro i e hi hp
        rw [hts]
        rw [hel] at hi
        by_cases hlt : i < st.elems.length
        · rw [List.getElem?_append_left hlt] at hi
          rw [inv_no_overlay st h hn i e hi] at hp
          exact Bool.noConfusion hp
        · have hlen : i < (st.elems ++ [el]).length := by
            by_contra hge
            rw [List.getElem?_eq_none (Nat.le_of_not_lt hge)] at hi
            exact Option.noConfusion hi
          simp only [List.length_append, List.length_singleton] at hlen
          congr 1
          omega
      · rw [f6]
        intro hne
        exact absurd ht hne
  · rw [showTimestamp_skip _ _ _ _ (Or.inl (by simpa using hc))]
    exact h

theorem inv_timerCallback (host : Host) (st : State) (h : Inv st)
    (ht : st.timers = []) (hn : st.timestampEl = none) : Inv (timerCallback host st) := by
  unfold timerCallback
  split
  · exact inv_showTimestamp _ _ _ _ h ht hn
  · exact h

theorem clearTimeout_pending (id : Nat) (st : State) (h : Inv st)
    (hp : st.timers.any (fun t => t.id == id) = true) :
    (clearTimeout id st).timers = [] ∧ st.timestampEl = none ∧ Inv (clearTimeout id st) := by
  rw [List.any_eq_true] at hp
  obtain ⟨t, hmem, hid⟩ := hp
  have hne : st.timers ≠ [] := List.ne_nil_of_mem hmem
  have hnone := h.pending_no_overlay hne
  have hnil : (clearTimeout id st).timers = [] := by
    unfold clearTimeout
    simp only []
    rw [List.filter_eq_nil_iff]
    intro u hu
    have h1 := h.timers_tracked t hmem
    have h2 := h.timers_tracked u hu
    rw [h1] at h2
    have h3 : t.id = u.id := Option.some.inj h2
    have h4 : t.id = id := by simpa using hid
    simp [← h3, h4]
  refine ⟨hnil, hnone, ?_⟩
  constructor
  · rw [hnil]
    intro u hu
    exact absurd hu (List.not_mem_nil u)
  · rw [hnil]
    exact Nat.zero_le 1
  · exact h.overlays_tracked
  · intro hh
    exact absurd hnil hh

theorem inv_handleTyping (editor view : Nat) (st : State) (h : Inv st) :
    Inv (handleTyping editor view st) ∧
    (handleTyping editor view st).timers =
      [{ id := st.nextTimerId, setAt := st.clock, delay := effectiveDelay st.settings }] ∧
    (handleTyping editor view st).timeoutId = some st.nextTimerId ∧
    (handleTyping editor view st).timestampEl = none ∧
    (∀ (i : Nat) (el : OverlayEl), (handleTyping editor view st).elems[i]? = some el →
      el.parent = none) ∧
    (handleTyping editor view st).elems.length = st.elems.length ∧
    (handleTyping editor view st).pendingEditor = some editor ∧
    (handleTyping editor view st).pendingView = some view ∧
    (handleTyping editor view st).settings = st.settings ∧
    (handleTyping editor view st).clock = st.clock := by
  have htim : (handleTyping editor view st).timers =
      [{ id := st.nextTimerId, setAt := st.clock, delay := effectiveDelay st.settings }] := by
    rw [handleTyping_timers, clearInactivityTimer_timers st h.timers_tracked]
    rfl
  have hel : (handleTyping editor view st).elems = (removeTimestamp st).elems := by
    unfold handleTyping setTimeout removeTimestamp clearInactivityTimer clearTimeout onTimestampEl
    cases h1 : st.timeoutId <;> cases h2 : st.timestampEl <;> simp [h1, h2]
  have hrest : (handleTyping editor view st).timeoutId = some st.nextTimerId ∧
      (handleTyping editor view st).timestampEl = none ∧
      (handleTyping editor view st).pendingEditor = some editor ∧
      (handleTyping editor view st).pendingView = some view ∧
      (handleTyping editor view st).settings = st.settings ∧
      (handleTyping editor view st).clock = st.clock := by
    unfold handleTyping setTimeout removeTimestamp clearInactivityTimer clearTimeout onTimestampEl
    cases h1 : st.timeoutId <;> cases h2 : st.timestampEl <;> simp [h1, h2]
  obtain ⟨r1, r2, r3, r4, r5, r6⟩ := hrest
  have hpar : ∀ (i : Nat) (el : OverlayEl), (handleTyping editor view st).elems[i]? = some el →
      el.parent = none := by
    rw [hel]
    exact removeTimestamp_elems st h.overlays_tracked
  refine ⟨?_, htim, r1, r2, hpar, ?_, r3, r4, r5, r6⟩
  · constructor
    · intro t hmem
      rw [htim, List.mem_singleton] at hmem
      rw [r1, hmem]
    · rw [htim]
      exact Nat.le_refl 1
    · intro i el hi hp
      rw [hpar i el hi] at hp
      exact Bool.noConfusion hp
    · intro _
      exact r2
  · rw [hel]
    exact removeTimestamp_elems_length st

theorem inv_onunload (st : State) (h : Inv st) : Inv (onunload st) := by
  obtain ⟨f1, f2, f3, -, -, -, -, f8⟩ := onunload_fields st
  have hnil : (onunload st).timers = [] := by
    rw [f1]
    exact clearInactivityTimer_timers st h.timers_tracked
  constructor
  · rw [hnil]
    intro u hu
    exact absurd hu (List.not_mem_nil u)
  · rw [hnil]
    exact Nat.zero_le 1
  · intro i el hi hp
    rw [f8] at hi
    rw [removeTimestamp_elems st h.overlays_tracked i el hi] at hp
    exact Bool.noConfusion hp
  · intro _
    exact f3

theorem inv_step (st st2 : State) (ev : Event) (h : Inv st) (hs : step st ev = some st2) :
    Inv st2 := by
  cases ev with
  | handleTyping editor view =>
    simp only [step, Option.some.injEq] at hs
    rw [← hs]
    exact (inv_handleTyping editor view st h).1
  | timerFires host id =>
    simp only [step, fireTimer] at hs
    by_cases hp : st.timers.any (fun t => t.id == id) = true
    · rw [if_pos hp, Option.some.injEq] at hs
      rw [← hs]
      obtain ⟨hnil, hnone, hinv⟩ := clearTimeout_pending id st h hp
      exact inv_timerCallback host _ hinv hnil hnone
    · rw [if_neg hp] at hs
      exact Option.noConfusion hs
  | onunload =>
    simp only [step, Option.some.injEq] at hs
    rw [← hs]
    exact inv_onunload st h
  | updateColors =>
    simp only [step, Option.some.injEq] at hs
    rw [← hs]
    exact inv_onTimestampEl _ st h
  | updateFonts =>
    simp only [step, Option.some.injEq] at hs
    rw [← hs]
    exact inv_onTimestampEl _ st h
  | loadGoogleFont fontName =>
    simp only [step, Option.some.injEq] at hs
    rw [← hs]
    obtain ⟨-, f2, f3, f4, f5⟩ := loadGoogleFont_frame fontName st
    exact inv_of_fields st _ h f4 f2 f3 f5
  | loadCustomFont =>
    simp only [step, Option.some.injEq] at hs
    rw [← hs]
    obtain ⟨-, f2, f3, f4, f5⟩ := loadCustomFont_frame st
    exact inv_of_fields st _ h f4 f2 f3 f5
  | setSettings settings =>
    simp only [step, Option.some.injEq] at hs
    rw [← hs]
    exact inv_of_fields st _ h rfl rfl rfl rfl
  | tick clock =>
    simp only [step, Option.some.injEq] at hs
    rw [← hs]
    exact inv_of_fields st _ h rfl rfl rfl rfl

theorem inv_reachable (st : State) (h : Reachable st) : Inv st := by
  induction h with
  | init settings clock head => exact inv_init settings clock head
  | step ev _ hs ih => exact inv_step _ _ ev ih hs

/-- C3. In every state reachable from the freshly constructed plugin by any
interleaving of edit notifications, timer firings, teardown, `updateColors`,
`updateFonts`, font loads, settings changes and the passing of time, at most
one timer is pending and at most one overlay element is appended to an editor
element; a timer is pending only while `timestampEl` is null. -/
theorem single_timer_single_overlay (st : State) (h : Reachable st) :
    st.timers.length ≤ 1 ∧ (attachedOverlays st).length ≤ 1 ∧
    (st.timers ≠ [] → st.timestampEl = none) := by
  have hinv := inv_reachable st h
  exact ⟨hinv.timers_le_one, attachedOverlays_le_one st hinv.overlays_tracked,
    hinv.pending_no_overlay⟩


/-! ## Lemmas on the timed run -/

theorem effectiveDelay_pos (settings : Settings) : 0 < effectiveDelay settings := by
  unfold effectiveDelay
  cases h : settings.inactivityThreshold <;>
    simp [numberIsFinite, JsValue.toRat, DEFAULT_SETTINGS, defaultInactivityThreshold]

theorem timeoutMs_nonneg (delay : ℚ) : 0 ≤ timeoutMs delay := by
  unfold timeoutMs
  exact le_max_left _ _

theorem timeoutMs_natCast (n : Nat) (h : n < 2147483648) : timeoutMs (n : ℚ) = (n : ℚ) := by
  have h0 : (0 : ℚ) ≤ (n : ℚ) := Nat.cast_nonneg n
  have hfl : Int.floor ((n : ℚ)) = (n : Int) := Int.floor_natCast n
  have hmod : (n : Int) % 4294967296 = (n : Int) := by omega
  have hlt : ¬ (2147483648 : Int) ≤ (n : Int) := by omega
  unfold timeoutMs toInt32
  simp only [if_pos h0, hfl, hmod, if_neg hlt]
  rw [max_eq_right]
  · exact Int.cast_natCast n
  · exact_mod_cast h0

theorem earliestTimer_mem (ts : List Timer) (t : Timer) (h : earliestTimer ts = some t) :
    t ∈ ts := by
  induction ts generalizing t with
  | nil => simp [earliestTimer] at h
  | cons u us ih =>
    unfold earliestTimer at h
    cases he : earliestTimer us with
    | none =>
      rw [he] at h
      simp only [Option.some.injEq] at h
      rw [← h]
      exact List.mem_cons_self _ _
    | some w =>
      rw [he] at h
      simp only [] at h
      by_cases hlt : w.due < u.due
      · rw [if_pos hlt, Option.some.injEq] at h
        rw [← h]
        exact List.mem_cons_of_mem _ (ih w he)
      · rw [if_neg hlt, Option.some.injEq] at h
        rw [← h]
        exact List.mem_cons_self _ _

theorem inv_advance (host : ℚ → Host) (T : ℚ) (fuel : Nat) (st : State) (h : Inv st) :
    Inv (advance host T fuel st) ∧ (advance host T fuel st).settings = st.settings := by
  induction fuel generalizing st with
  | zero => exact ⟨inv_of_fields st _ h rfl rfl rfl rfl, rfl⟩
  | succ fuel ih =>
    unfold advance
    cases he : earliestTimer st.timers with
    | none => exact ⟨inv_of_fields st _ h rfl rfl rfl rfl, rfl⟩
    | some t =>
      simp only []
      by_cases hd : t.due ≤ T
      · rw [if_pos hd]
        have hmem := earliestTimer_mem _ _ he
        have hinv0 : Inv { st with clock := t.due } := inv_of_fields st _ h rfl rfl rfl rfl
        have hp : ({ st with clock := t.due } : State).timers.any (fun u => u.id == t.id) =
            true := by
          rw [List.any_eq_true]
          exact ⟨t, hmem, by simp⟩
        obtain ⟨hnil, hnone, hinv⟩ := clearTimeout_pending t.id _ hinv0 hp
        have hcb := inv_timerCallback (host t.due) _ hinv hnil hnone
        obtain ⟨i1, i2⟩ := ih _ hcb
        refine ⟨i1, ?_⟩
        rw [i2, (timerCallback_frame _ _).1]
        rfl
      · rw [if_neg hd]
        exact ⟨inv_of_fields st _ h rfl rfl rfl rfl, rfl⟩

theorem waiting_inv (settings : Settings) (t : ℚ) (count editor view : Nat) (st : State)
    (h : Waiting settings t count editor view st) : Inv st := by
  obtain ⟨id, htim, hid⟩ := h.timer
  constructor
  · intro u hu
    rw [htim, List.mem_singleton] at hu
    rw [hid, hu]
  · rw [htim]
    exact Nat.le_refl 1
  · intro i el hi hp
    rw [h.detached i el hi] at hp
    exact Bool.noConfusion hp
  · intro _
    exact h.no_overlay

theorem waiting_quiet (host : ℚ → Host) (settings : Settings) (t T : ℚ)
    (count editor view : Nat) (st : State) (h : Waiting settings t count editor view st)
    (hT : T < t + timeoutMs (effectiveDelay settings)) :
    runUntil host T st = { st with clock := T } := by
  obtain ⟨id, htim, -⟩ := h.timer
  unfold runUntil
  rw [htim]
  simp only [List.length_singleton, advance, htim, earliestTimer, Timer.due]
  rw [if_neg (not_le.mpr hT)]

theorem waiting_set_clock (settings : Settings) (t T : ℚ) (count editor view : Nat)
    (st : State) (h : Waiting settings t count editor view st) :
    Waiting settings t count editor view { st with clock := T } :=
  ⟨h.timer, h.no_overlay, h.detached, h.created, h.editor_recorded, h.view_recorded,
    h.settings_eq⟩

theorem waiting_fires (host : ℚ → Host) (settings : Settings) (t T : ℚ)
    (count editor view : Nat) (st : State) (h : Waiting settings t count editor view st)
    (hT : t + timeoutMs (effectiveDelay settings) ≤ T) (editorEl : Nat)
    (hc : ((host (t + timeoutMs (effectiveDelay settings))).view view).isConnected = true)
    (he : ((host (t + timeoutMs (effectiveDelay settings))).view view).cmEditor = some editorEl) :
    (attachedOverlays (runUntil host T st)).length = 1 ∧
    (runUntil host T st).elems.length = count + 1 ∧
    (runUntil host T st).timers = [] := by
  obtain ⟨id, htim, -⟩ := h.timer
  have hdet := h.detached
  have hcnt := h.created
  have hed := h.editor_recorded
  have hvw := h.view_recorded
  unfold runUntil
  rw [htim]
  simp only [List.length_singleton, advance, htim, earliestTimer, Timer.due]
  rw [if_pos hT]
  simp only [timerCallback, clearTimeout, hed, hvw]
  obtain ⟨el, hpar, hel, -⟩ := showTimestamp_render (host (t + timeoutMs (effectiveDelay settings)))
    editor view
    { settings := st.settings, timeoutId := st.timeoutId, timestampEl := st.timestampEl,
      pendingEditor := some editor, pendingView := some view,
      clock := t + timeoutMs (effectiveDelay settings),
      timers := List.filter (fun u => u.id != id)
        [{ id := id, setAt := t, delay := effectiveDelay settings }],
      nextTimerId := st.nextTimerId, elems := st.elems, head := st.head } editorEl hc he
  obtain ⟨-, -, -, -, -, f6, -, -⟩ := showTimestamp_frame (host (t + timeoutMs (effectiveDelay settings)))
    editor view
    { settings := st.settings, timeoutId := st.timeoutId, timestampEl := st.timestampEl,
      pendingEditor := some editor, pendingView := some view,
      clock := t + timeoutMs (effectiveDelay settings),
      timers := List.filter (fun u => u.id != id)
        [{ id := id, setAt := t, delay := effectiveDelay settings }],
      nextTimerId := st.nextTimerId, elems := st.elems, head := st.head }
  refine ⟨?_, ?_, ?_⟩
  · unfold attachedOverlays
    simp only [hel, List.filter_append]
    have hnil : st.elems.filter (fun e => e.parent.isSome) = [] := by
      rw [List.filter_eq_nil_iff]
      intro a ha
      obtain ⟨i, hi⟩ := List.mem_iff_getElem?.mp ha
      rw [hdet i a hi]
      exact Bool.false_ne_true
    rw [hnil]
    simp [List.filter, hpar]
  · simp only [hel, List.length_append, List.length_singleton, hcnt]
  · simp only [f6]
    simp

theorem handleTyping_waiting (editor view : Nat) (st : State) (h : Inv st)
    (settings : Settings) (count : Nat) (hs : st.settings = settings)
    (hc : st.elems.length = count) :
    Waiting settings st.clock count editor view (handleTyping editor view st) := by
  subst hs hc
  obtain ⟨-, h1, h2, h3, h4, h5, h6, h7, h8, -⟩ := inv_handleTyping editor view st h
  exact ⟨⟨st.nextTimerId, h1, h2⟩, h3, h4, h5, h6, h7, h8⟩

theorem closelySpaced_later (d t : ℚ) (es : List Edit) (h : closelySpaced d t es) :
    ∀ e ∈ es, t < e.time := by
  induction es generalizing t with
  | nil => intro e he; exact absurd he (List.not_mem_nil e)
  | cons x xs ih =>
    intro e he
    obtain ⟨h1, -, h3⟩ := h
    rcases List.mem_cons.mp he with rfl | hmem
    · exact h1
    · exact lt_trans h1 (ih x.time h3 e hmem)

theorem lastTime_ge (d t : ℚ) (es : List Edit) (h : closelySpaced d t es) :
    t ≤ lastTime t es := by
  induction es generalizing t with
  | nil => exact le_refl t
  | cons x xs ih =>
    obtain ⟨h1, -, h3⟩ := h
    exact le_trans (le_of_lt h1) (ih x.time h3)

theorem run_from_waiting (host : ℚ → Host) (settings : Settings) (count : Nat)
    (es : List Edit) :
    ∀ (st : State) (e : Edit), Waiting settings e.time count e.editor e.view st →
      closelySpaced (timeoutMs (effectiveDelay settings)) e.time es →
      ∀ (editorEl : Nat),
      ((host (lastTime e.time es + timeoutMs (effectiveDelay settings))).view
        (lastEdit e es).view).isConnected = true →
      ((host (lastTime e.time es + timeoutMs (effectiveDelay settings))).view
        (lastEdit e es).view).cmEditor = some editorEl →
      ∀ T : ℚ, e.time ≤ T →
        (T < lastTime e.time es + timeoutMs (effectiveDelay settings) →
          attachedOverlays (runUntil host T (runEdits host st
            (es.filter (fun x => x.time ≤ T)))) = [] ∧
          (runUntil host T (runEdits host st
            (es.filter (fun x => x.time ≤ T)))).elems.length = count) ∧
        (lastTime e.time es + timeoutMs (effectiveDelay settings) ≤ T →
          (attachedOverlays (runUntil host T (runEdits host st
            (es.filter (fun x => x.time ≤ T))))).length = 1 ∧
          (runUntil host T (runEdits host st
            (es.filter (fun x => x.time ≤ T)))).elems.length = count + 1) := by
  induction es with
  | nil =>
    intro st e hw _ editorEl hc he T hT
    simp only [List.filter_nil, runEdits, List.foldl_nil, lastTime, lastEdit] at hc he ⊢
    constructor
    · intro hlt
      rw [waiting_quiet host settings e.time T count e.editor e.view st hw hlt]
      exact ⟨attachedOverlays_eq_nil _ hw.detached, hw.created⟩
    · intro hge
      obtain ⟨r1, r2, -⟩ := waiting_fires host settings e.time T count e.editor e.view st hw
        hge editorEl hc he
      exact ⟨r1, r2⟩
  | cons x xs ih =>
    intro st e hw hsp editorEl hc he T hT
    obtain ⟨h1, h2, h3⟩ := hsp
    simp only [lastTime, lastEdit] at hc he ⊢
    by_cases hx : x.time ≤ T
    · have hfil : (x :: xs).filter (fun y => y.time ≤ T) =
          x :: xs.filter (fun y => y.time ≤ T) := by
        simp [List.filter_cons, hx]
      rw [hfil]
      simp only [runEdits, List.foldl_cons]
      have hq := waiting_quiet host settings e.time x.time count e.editor e.view st hw h2
      have hw2 : Waiting settings x.time count x.editor x.view (editAt host st x) := by
        unfold editAt
        rw [hq]
        have hwc := waiting_set_clock settings e.time x.time count e.editor e.view st hw
        exact handleTyping_waiting x.editor x.view _ (waiting_inv _ _ _ _ _ _ hwc)
          settings count hw.settings_eq hw.created
      exact ih (editAt host st x) x hw2 h3 editorEl hc he T hx
    · have hlt : T < x.time := lt_of_not_le hx
      have hfil : (x :: xs).filter (fun y => y.time ≤ T) = [] := by
        rw [List.filter_eq_nil_iff]
        intro y hy
        have hy2 : x.time ≤ y.time := by
          rcases List.mem_cons.mp hy with rfl | hmem
          · exact le_refl _
          · exact le_of_lt (closelySpaced_later _ _ _ h3 y hmem)
        simp only [decide_eq_true_eq, not_le]
        exact lt_of_lt_of_le hlt hy2
      rw [hfil]
      simp only [runEdits, List.foldl_nil]
      have hlast := lastTime_ge _ _ _ h3
      have hpos := timeoutMs_nonneg (effectiveDelay settings)
      constructor
      · intro _
        rw [waiting_quiet host settings e.time T count e.editor e.view st hw
          (lt_trans hlt h2)]
        exact ⟨attachedOverlays_eq_nil _ hw.detached, hw.created⟩
      · intro hge
        exfalso
        linarith


theorem advance_clock (host : ℚ → Host) (T : ℚ) (fuel : Nat) (st : State) :
    (advance host T fuel st).clock = T := by
  induction fuel generalizing st with
  | zero => rfl
  | succ fuel ih =>
    unfold advance
    cases he : earliestTimer st.timers with
    | none => rfl
    | some t =>
      simp only []
      by_cases hd : t.due ≤ T
      · rw [if_pos hd]
        exact ih _
      · rw [if_neg hd]

theorem debounce_at_host_delay (host : ℚ → Host) (st : State) (e : Edit) (es : List Edit)
    (editorEl : Nat) (hinv : Inv st)
    (hsp : closelySpaced (timeoutMs (effectiveDelay st.settings)) e.time es)
    (hc : ((host (lastTime e.time es + timeoutMs (effectiveDelay st.settings))).view
      (lastEdit e es).view).isConnected = true)
    (he : ((host (lastTime e.time es + timeoutMs (effectiveDelay st.settings))).view
      (lastEdit e es).view).cmEditor = some editorEl) :
    (∀ T : ℚ, e.time ≤ T → T < lastTime e.time es + timeoutMs (effectiveDelay st.settings) →
      attachedOverlays (stateAt host st (e :: es) T) = [] ∧
      (stateAt host st (e :: es) T).elems.length = (runUntil host e.time st).elems.length) ∧
    (∀ T : ℚ, e.time ≤ T → lastTime e.time es + timeoutMs (effectiveDelay st.settings) ≤ T →
      (attachedOverlays (stateAt host st (e :: es) T)).length = 1 ∧
      (stateAt host st (e :: es) T).elems.length =
        (runUntil host e.time st).elems.length + 1) := by
  obtain ⟨hi, hset⟩ := inv_advance host e.time st.timers.length st hinv
  have hw : Waiting st.settings e.time (runUntil host e.time st).elems.length e.editor e.view
      (editAt host st e) := by
    have := handleTyping_waiting e.editor e.view (runUntil host e.time st) hi st.settings
      (runUntil host e.time st).elems.length hset rfl
    rw [show (runUntil host e.time st).clock = e.time from advance_clock _ _ _ _] at this
    exact this
  have hunf : ∀ T : ℚ, e.time ≤ T → stateAt host st (e :: es) T =
      runUntil host T (runEdits host (editAt host st e) (es.filter (fun x => x.time ≤ T))) := by
    intro T hT
    unfold stateAt
    simp [List.filter_cons, hT, runEdits]
  have hmain := run_from_waiting host st.settings (runUntil host e.time st).elems.length es
    (editAt host st e) e hw hsp editorEl hc he
  constructor
  · intro T hT hlt
    rw [hunf T hT]
    exact (hmain T hT).1 hlt
  · intro T hT hge
    rw [hunf T hT]
    exact (hmain T hT).2 hge

/-- C1 (amended). Debounce is last-edit-wins for every effective delay `d` that
is a whole number of milliseconds below 2^31, the delays `window.setTimeout`
applies as they are. Take any state satisfying the state invariant, settings
with such an effective delay, and edits arriving at strictly increasing times
`t1 < ... < tn`, each less than `d` after the one before, with nothing else
happening but time passing; let the view of the last edit be connected and
hold an editor element at time `tn + d`. Then at every time in `[t1, tn + d)`
no overlay element is appended and none has been created since `t1`, and at
every time from `tn + d` on exactly one overlay element is appended and
exactly one has been created since `t1`: the single render happens at
`tn + d`. -/
theorem debounce_last_edit_wins (host : ℚ → Host) (st : State) (e : Edit) (es : List Edit)
    (editorEl : Nat) (n : Nat) (hinv : Inv st)
    (hn : effectiveDelay st.settings = (n : ℚ)) (hlt : n < 2147483648)
    (hsp : closelySpaced (effectiveDelay st.settings) e.time es)
    (hc : ((host (lastTime e.time es + effectiveDelay st.settings)).view
      (lastEdit e es).view).isConnected = true)
    (he : ((host (lastTime e.time es + effectiveDelay st.settings)).view
      (lastEdit e es).view).cmEditor = some editorEl) :
    (∀ T : ℚ, e.time ≤ T → T < lastTime e.time es + effectiveDelay st.settings →
      attachedOverlays (stateAt host st (e :: es) T) = [] ∧
      (stateAt host st (e :: es) T).elems.length =
        (stateAt host st (e :: es) e.time).elems.length) ∧
    (∀ T : ℚ, lastTime e.time es + effectiveDelay st.settings ≤ T →
      (attachedOverlays (stateAt host st (e :: es) T)).length = 1 ∧
      (stateAt host st (e :: es) T).elems.length =
        (stateAt host st (e :: es) e.time).elems.length + 1) := by
  have hD : timeoutMs (effectiveDelay st.settings) = effectiveDelay st.settings := by
    rw [hn]
    exact timeoutMs_natCast n hlt
  have hlast := lastTime_ge _ _ _ hsp
  have hpos := effectiveDelay_pos st.settings
  rw [← hD] at hsp hc he
  have hmain := debounce_at_host_delay host st e es editorEl hinv hsp hc he
  rw [hD] at hmain
  have hbase : (stateAt host st (e :: es) e.time).elems.length =
      (runUntil host e.time st).elems.length :=
    ((hmain.1 e.time (le_refl _)) (by linarith)).2
  constructor
  · intro T hT hlt2
    rw [hbase]
    exact hmain.1 T hT hlt2
  · intro T hge
    have hT : e.time ≤ T := by linarith
    rw [hbase]
    exact hmain.2 T hT hge


/-! ## Witnesses and counterexamples -/

/-- Counterexample to C1 as stated: with a threshold of 2^31 ms the effective
delay is 2^31 ms, `window.setTimeout` applies a delay of 0, and after a single
edit at time 0 the overlay is there at time 200, inside `[t1, tn + d)`. With a
threshold of 250.5 ms the applied delay is 250 ms, and the overlay is there at
time 250.25, before `tn + d`. -/
theorem debounce_large_delay_counterexample :
    (effectiveDelay freshHugeThreshold.settings = 2147483648 ∧
      (0 : ℚ) ≤ 200 ∧ (200 : ℚ) < 0 + effectiveDelay freshHugeThreshold.settings ∧
      (attachedOverlays (stateAt (fun _ => attachedHost) freshHugeThreshold
        [{ time := 0, editor := 1, view := 2 }] 200)).length = 1) ∧
    (effectiveDelay freshHalfMillisecond.settings = 501 / 2 ∧
      (0 : ℚ) ≤ 1001 / 4 ∧ (1001 / 4 : ℚ) < 0 + effectiveDelay freshHalfMillisecond.settings ∧
      (attachedOverlays (stateAt (fun _ => attachedHost) freshHalfMillisecond
        [{ time := 0, editor := 1, view := 2 }] (1001 / 4))).length = 1) := by
  have hd : effectiveDelay freshHugeThreshold.settings = 2147483648 := by
    simp only [effectiveDelay, freshHugeThreshold, init, withThreshold, numberIsFinite,
      JsValue.toRat, ↓reduceIte]
    norm_num
  have ht : timeoutMs (effectiveDelay freshHugeThreshold.settings) = 0 := by
    rw [hd]
    decide
  have h := debounce_at_host_delay (fun _ => attachedHost) freshHugeThreshold
    { time := 0, editor := 1, view := 2 } [] 7 (inv_init _ _ _) trivial rfl rfl
  have hd2 : effectiveDelay freshHalfMillisecond.settings = 501 / 2 := by
    simp only [effectiveDelay, freshHalfMillisecond, init, withThreshold, numberIsFinite,
      JsValue.toRat, ↓reduceIte]
    norm_num
  have ht2 : timeoutMs (effectiveDelay freshHalfMillisecond.settings) = 250 := by
    have hfl : Int.floor ((501 : ℚ) / 2) = 250 := by
      rw [Int.floor_eq_iff]
      constructor <;> norm_num
    have h0 : (0 : ℚ) ≤ 501 / 2 := by norm_num
    rw [hd2]
    unfold timeoutMs toInt32
    simp only [if_pos h0, hfl]
    norm_num
  have h2 := debounce_at_host_delay (fun _ => attachedHost) freshHalfMillisecond
    { time := 0, editor := 1, view := 2 } [] 7 (inv_init _ _ _) trivial rfl rfl
  refine ⟨⟨hd, by norm_num, ?_, (h.2 200 (by norm_num) ?_).1⟩,
    ⟨hd2, by norm_num, ?_, (h2.2 (1001 / 4) (by norm_num) ?_).1⟩⟩
  · rw [hd]
    norm_num
  · rw [ht]
    simp only [lastTime]
    norm_num
  · rw [hd2]
    norm_num
  · rw [ht2]
    simp only [lastTime]
    norm_num

/-- Witness for C1: threshold 1000 ms, edits at 0 and 500; no overlay at 1000,
one overlay at 1500. -/
theorem debounce_last_edit_wins_witness :
    closelySpaced (effectiveDelay freshOneSecond.settings) 0
      [{ time := 500, editor := 1, view := 2 }] ∧
    attachedOverlays (stateAt (fun _ => attachedHost) freshOneSecond
      [{ time := 0, editor := 1, view := 2 }, { time := 500, editor := 1, view := 2 }]
      1000) = [] ∧
    (attachedOverlays (stateAt (fun _ => attachedHost) freshOneSecond
      [{ time := 0, editor := 1, view := 2 }, { time := 500, editor := 1, view := 2 }]
      1500)).length = 1 := by
  have hd : effectiveDelay freshOneSecond.settings = 1000 := by
    simp only [effectiveDelay, freshOneSecond, init, oneSecondSettings, numberIsFinite,
      JsValue.toRat, ↓reduceIte]
    norm_num
  have hsp : closelySpaced (effectiveDelay freshOneSecond.settings) 0
      [{ time := 500, editor := 1, view := 2 }] := by
    rw [hd]
    simp only [closelySpaced, and_true]
    constructor <;> norm_num
  have h := debounce_last_edit_wins (fun _ => attachedHost) freshOneSecond
    { time := 0, editor := 1, view := 2 } [{ time := 500, editor := 1, view := 2 }] 7 1000
    (inv_init _ _ _) (by rw [hd]; norm_num) (by norm_num) hsp rfl rfl
  refine ⟨hsp, (h.1 1000 (by norm_num) ?_).1, (h.2 1500 ?_).1⟩
  · rw [hd]
    simp only [lastTime]
    norm_num
  · rw [hd]
    simp only [lastTime]
    norm_num

/-- Witness for C2: teardown of a plugin that shows an overlay and has both
font nodes in the document. -/
theorem onunload_postcondition_witness :
    (onunload (visibleState DEFAULT_SETTINGS defaultOverlay)).timers = [] ∧
    (onunload (visibleState DEFAULT_SETTINGS defaultOverlay)).timeoutId = none ∧
    (onunload (visibleState DEFAULT_SETTINGS defaultOverlay)).timestampEl = none ∧
    attachedOverlays (onunload (visibleState DEFAULT_SETTINGS defaultOverlay)) = [] ∧
    (onunload (visibleState DEFAULT_SETTINGS defaultOverlay)).pendingEditor = none ∧
    (onunload (visibleState DEFAULT_SETTINGS defaultOverlay)).pendingView = none ∧
    getElementById GOOGLE_FONT_LINK_ID
      (onunload (visibleState DEFAULT_SETTINGS defaultOverlay)).head = none ∧
    getElementById CUSTOM_FONT_STYLE_ID
      (onunload (visibleState DEFAULT_SETTINGS defaultOverlay)).head = none ∧
    onunload (onunload (visibleState DEFAULT_SETTINGS defaultOverlay)) =
      onunload (visibleState DEFAULT_SETTINGS defaultOverlay) :=
  onunload_postcondition (visibleState DEFAULT_SETTINGS defaultOverlay)
    (by intro t ht; simp [visibleState] at ht)
    (by
      intro i el hi _
      cases i with
      | zero => rfl
      | succ i => simp [visibleState] at hi)
    (by decide) (by decide)

/-- Witness for C3: the state after one edit and the firing of its timer. -/
theorem single_timer_single_overlay_witness :
    (timerCallback attachedHost (clearTimeout 1 afterOneEdit)).timers.length ≤ 1 ∧
    (attachedOverlays (timerCallback attachedHost (clearTimeout 1 afterOneEdit))).length ≤ 1 ∧
    ((timerCallback attachedHost (clearTimeout 1 afterOneEdit)).timers ≠ [] →
      (timerCallback attachedHost (clearTimeout 1 afterOneEdit)).timestampEl = none) :=
  single_timer_single_overlay _
    (Reachable.step (.timerFires attachedHost 1)
      (Reachable.step (.handleTyping 1 2) (Reachable.init DEFAULT_SETTINGS 0 []) rfl)
      (by decide))

/-- Counterexample to C4 as stated: the URL does not begin with `https://` (it
begins with a blank), yet `loadCustomFont` creates the style node. -/
theorem loadCustomFont_padded_url_counterexample :
    jsStartsWith " https://fonts.example/font.ttf" "https://" = false ∧
    getElementById CUSTOM_FONT_STYLE_ID (init paddedUrlSettings 0 []).head = none ∧
    (getElementById CUSTOM_FONT_STYLE_ID
      (loadCustomFont (init paddedUrlSettings 0 [])).head).isSome = true := by
  decide

/-- Witness for C4: an insecure URL leaves an existing style node untouched. -/
theorem loadCustomFont_noop_witness :
    jsStartsWith (jsTrim "http://insecure.example/font.ttf") "https://" = false ∧
    loadCustomFont (visibleState insecureSettings defaultOverlay) =
      visibleState insecureSettings defaultOverlay :=
  ⟨by decide, loadCustomFont_noop (visibleState insecureSettings defaultOverlay)
    (Or.inr (Or.inr (by decide)))⟩

/-- The family name a, quote, b, backslash, c is read back unchanged from the
text `loadCustomFont` writes. -/
theorem escapeCssString_reads_back_example :
    ∃ n, getElementById CUSTOM_FONT_STYLE_ID
        (loadCustomFont (init quotedFamilySettings 0 [])).head = some n ∧
      (readCssStringBody (n.textContent.data.drop fontFacePrefix.length)).map
        (fun r => r.1) = some "a'b\\c".data := by
  obtain ⟨n, hn, hr⟩ := escapeCssString_reads_back.2.1 (init quotedFamilySettings 0 [])
    "https://fonts.example/font.ttf" "a'b\\c" rfl rfl (by decide) (by decide) (by decide)
    (by decide)
  refine ⟨n, hn, ?_⟩
  rw [hr, Option.map_some', escapeCssString_reads_back.2.2]

/-- Witness for C7: thresholds zero and minus five give 250, a threshold of
300.5 is kept, and NaN and a non-number give the default 60000. -/
theorem handleTyping_delay_clamped_witness :
    effectiveDelay (withThreshold (.finite 0)) = 250 ∧
    effectiveDelay (withThreshold (.finite (-5))) = 250 ∧
    effectiveDelay (withThreshold (.finite (601 / 2))) = 601 / 2 ∧
    effectiveDelay (withThreshold .nan) = 60000 ∧
    effectiveDelay (withThreshold .notNumber) = 60000 := by
  refine ⟨?_, ?_, ?_, ?_, ?_⟩
  · exact (handleTyping_delay_clamped 1 2 (init (withThreshold (.finite 0)) 0 [])).2.1.trans
      (by simp only [init, withThreshold]; norm_num)
  · exact (handleTyping_delay_clamped 1 2 (init (withThreshold (.finite (-5))) 0 [])).2.1.trans
      (by simp only [init, withThreshold]; norm_num)
  · exact (handleTyping_delay_clamped 1 2
      (init (withThreshold (.finite (601 / 2))) 0 [])).2.1.trans
      (by simp only [init, withThreshold]; norm_num)
  · exact (handleTyping_delay_clamped 1 2 (init (withThreshold .nan) 0 [])).2.1.trans
      (by simp only [init, withThreshold])
  · exact (handleTyping_delay_clamped 1 2 (init (withThreshold .notNumber) 0 [])).2.1.trans
      (by simp only [init, withThreshold])

/-- Witness for C6: an animated gradient overlay and a default overlay, both
switched to colour mode `single`. -/
theorem updateColors_resets_mode_witness :
    ∃ r1 r2,
      (updateColors (visibleState singleColorSettings gradientOverlay)).elems[0]? = some r1 ∧
      (updateColors (visibleState singleColorSettings defaultOverlay)).elems[0]? = some r2 ∧
      modeClassesOf r1 = [specModeClass singleColorSettings] ∧
      (∀ p ∈ colorPropertiesOf r1, p.1 ∈ specModeProperties singleColorSettings) ∧
      modeClassesOf r1 = modeClassesOf r2 ∧
      colorPropertiesOf r1 = colorPropertiesOf r2 :=
  updateColors_resets_mode (visibleState singleColorSettings gradientOverlay)
    (visibleState singleColorSettings defaultOverlay) 0 0 gradientOverlay defaultOverlay
    rfl rfl rfl rfl rfl

/-- Counterexample to C8 as stated: with font source `google` and an empty
Google font name, `updateFonts` replaces the overlay's font family by a pair
of quotes followed by the monospace fallback. -/
theorem updateFonts_empty_name_counterexample :
    emptyGoogleSettings.fontSource = "google" ∧ emptyGoogleSettings.googleFont = some "" ∧
    ((visibleState emptyGoogleSettings defaultOverlay).elems[0]?).map (fun el => el.fontFamily) =
      some (some "\"Roboto Mono\", monospace") ∧
    ((updateFonts attachedHost (visibleState emptyGoogleSettings defaultOverlay)).elems[0]?).map
      (fun el => el.fontFamily) = some (some "\"\", monospace") := by
  decide

/-- Witness for C8: the overlay under the settings with the empty Google font
name. -/
theorem updateFonts_font_family_witness :
    ∃ el2, (updateFonts attachedHost
        (visibleState emptyGoogleSettings defaultOverlay)).elems[0]? = some el2 ∧
      (emptyGoogleSettings.fontSource = "google" →
        isPlainFamilyName (jsToString emptyGoogleSettings.googleFont) = true →
        el2.fontFamily =
          some ("\"" ++ jsToString emptyGoogleSettings.googleFont ++ "\", monospace")) := by
  obtain ⟨el2, h1, -, -, h4, -, -⟩ := updateFonts_font_family attachedHost
    (visibleState emptyGoogleSettings defaultOverlay) 0 defaultOverlay rfl rfl
  exact ⟨el2, h1, h4⟩

/-- Witness for C9: load, reload, remove and load again, from an empty head. -/
theorem font_nodes_are_singletons_witness :
    countId GOOGLE_FONT_LINK_ID
      ([FontOp.loadGoogleFont "Roboto Mono", FontOp.loadGoogleFont "Inter",
        FontOp.loadCustomFont paddedUrlSettings, FontOp.removeInjectedFontNodes,
        FontOp.loadGoogleFont "Lato"].foldl FontOp.run freshOneSecond).head ≤ 1 ∧
    countId CUSTOM_FONT_STYLE_ID
      ([FontOp.loadGoogleFont "Roboto Mono", FontOp.loadGoogleFont "Inter",
        FontOp.loadCustomFont paddedUrlSettings, FontOp.removeInjectedFontNodes,
        FontOp.loadGoogleFont "Lato"].foldl FontOp.run freshOneSecond).head ≤ 1 :=
  (font_nodes_are_singletons freshOneSecond
    [FontOp.loadGoogleFont "Roboto Mono", FontOp.loadGoogleFont "Inter",
      FontOp.loadCustomFont paddedUrlSettings, FontOp.removeInjectedFontNodes,
      FontOp.loadGoogleFont "Lato"] rfl rfl).1

/-- Counterexample to C10 as stated: after the timer of the one edit fires and
the overlay is rendered, the recorded editor and view are still set. -/
theorem pending_context_not_cleared_counterexample :
    (fireTimer attachedHost 1 afterOneEdit).map
      (fun s => (s.pendingEditor, s.pendingView, (attachedOverlays s).length)) =
      some (some 1, some 2, 1) := by
  decide

/-- Witness for C10: the same firing. -/
theorem fireTimer_keeps_pending_witness :
    ∃ st2, fireTimer attachedHost 1 afterOneEdit = some st2 ∧
      st2 = showTimestamp attachedHost 1 2 (clearTimeout 1 afterOneEdit) ∧
      st2.pendingEditor = some 1 ∧ st2.pendingView = some 2 :=
  fireTimer_keeps_pending attachedHost 1 afterOneEdit 1 2 (by decide) rfl rfl

end TypingTracker
